import Mathlib

/-!
# SNES controller reader (`snes_read.c`): debounce machine and action dispatch

A shallow embedding of the per-button debounce state machine, the frame decode
and the action dispatch of `snes_read.c`, followed by the properties proved
about them.

Conventions of the embedding:
* C `int` and `long long` values are Lean `Int`s.  The only arithmetic on them is
  `counter[i]++` and `t + COOLDOWN_MS`; the counter invariant proved below shows
  that the incremented counter never leaves `0..PRESS_FRAMES`, and `t` is a
  `CLOCK_MONOTONIC` millisecond count, so neither operation leaves its C type.
* The three parallel arrays `state[]`, `counter[]`, `cooldown_end[]` are one
  array of `ButtonState` records, indexed by the button number.
* Calls to the external collaborators (`mqtt_publish`, `adb_keyevent`) and the
  `printf("Pressed: ...")` line are recorded as `Effect`s, in program order.
-/

namespace SnesRead

/-! ## Constants -/

/-- `#define NUM_BUTTONS 12` -/
def NUM_BUTTONS : Nat := 12

/-- `#define PRESS_FRAMES 4`: consecutive pressed frames to trigger. -/
def PRESS_FRAMES : Int := 4

/-- `#define RELEASE_FRAMES 4`: consecutive released frames to re-arm. -/
def RELEASE_FRAMES : Int := 4

/-- `#define COOLDOWN_MS 400`: ignore button for this long after firing. -/
def COOLDOWN_MS : Int := 400

/-- `#define DATA_PIN 22` -/
def DATA_PIN : Nat := 22

/-- Largest value of a 32-bit C `int`. -/
def INT_MAX : Int := 2147483647

/-- `enum { BTN_B=0, BTN_Y, BTN_SELECT, BTN_START, ... }` in `main`. -/
def BTN_B : Nat := 0
/-- Second enumerator. -/
def BTN_Y : Nat := 1
/-- Third enumerator. -/
def BTN_SELECT : Nat := 2
/-- Fourth enumerator. -/
def BTN_START : Nat := 3
/-- Fifth enumerator. -/
def BTN_UP : Nat := 4
/-- Sixth enumerator. -/
def BTN_DOWN : Nat := 5
/-- Seventh enumerator. -/
def BTN_LEFT : Nat := 6
/-- Eighth enumerator. -/
def BTN_RIGHT : Nat := 7
/-- Ninth enumerator. -/
def BTN_A : Nat := 8
/-- Tenth enumerator. -/
def BTN_X : Nat := 9
/-- Eleventh enumerator. -/
def BTN_L : Nat := 10
/-- Twelfth enumerator. -/
def BTN_R : Nat := 11

/-! ## The per-button debounce machine -/

/-- `enum state { IDLE, COOLDOWN, WAIT_RELEASE };` -/
inductive state where
  | IDLE
  | COOLDOWN
  | WAIT_RELEASE
deriving DecidableEq, Repr

/-- The entries `state[i]`, `counter[i]`, `cooldown_end[i]` of one button. -/
structure ButtonState where
  st : state
  counter : Int
  cooldown_end : Int
deriving DecidableEq, Repr

/-- The body of `switch (state[i])` in `main` for one button and one frame:
`pressed` is `bits[i] == 0`, `t` is the frame's `now_ms()`.  Returns the new
`ButtonState` and whether the fire branch (`counter[i] >= PRESS_FRAMES` in
`case IDLE`) was taken. -/
def debounce_step (s : ButtonState) (pressed : Bool) (t : Int) : ButtonState × Bool :=
  match s.st with
  | state.IDLE =>
    if pressed then
      if s.counter + 1 ≥ PRESS_FRAMES then
        (ButtonState.mk state.COOLDOWN 0 (t + COOLDOWN_MS), true)
      else
        (ButtonState.mk state.IDLE (s.counter + 1) s.cooldown_end, false)
    else
      (ButtonState.mk state.IDLE 0 s.cooldown_end, false)
  | state.COOLDOWN =>
    if t ≥ s.cooldown_end then
      (ButtonState.mk state.WAIT_RELEASE 0 s.cooldown_end, false)
    else
      (s, false)
  | state.WAIT_RELEASE =>
    if !pressed then
      if s.counter + 1 ≥ RELEASE_FRAMES then
        (ButtonState.mk state.IDLE 0 s.cooldown_end, false)
      else
        (ButtonState.mk state.WAIT_RELEASE (s.counter + 1) s.cooldown_end, false)
    else
      (ButtonState.mk state.WAIT_RELEASE 0 s.cooldown_end, false)

/-- The value every button gets in the initialisation loop of `main`:
`state[i] = IDLE; counter[i] = 0; cooldown_end[i] = 0;`. -/
def init_button : ButtonState := ButtonState.mk state.IDLE 0 0

/-- State of one button after feeding it a sequence of `(pressed, t)` samples,
one per frame, oldest first. -/
def run (s : ButtonState) : List (Bool × Int) → ButtonState
  | [] => s
  | f :: fs => run (debounce_step s f.1 f.2).1 fs

/-- Fire flags of one button, one per frame, for a sequence of samples. -/
def fires (s : ButtonState) : List (Bool × Int) → List Bool
  | [] => []
  | f :: fs => (debounce_step s f.1 f.2).2 :: fires (debounce_step s f.1 f.2).1 fs

/-- State of the button at the boundary before frame `k` (after `k` frames). -/
def stateAt (s : ButtonState) (fs : List (Bool × Int)) (k : Nat) : ButtonState :=
  run s (fs.take k)

/-- Whether the button fires on frame `k` (0-based); `false` past the end. -/
def fireAt (s : ButtonState) (fs : List (Bool × Int)) (k : Nat) : Bool :=
  (fires s fs).getD k false

/-- The pressed-boolean of frame `k`; `false` past the end. -/
def sampleAt (fs : List (Bool × Int)) (k : Nat) : Bool :=
  (fs.getD k (false, 0)).1

/-- The timestamp of frame `k`; `0` past the end. -/
def stampAt (fs : List (Bool × Int)) (k : Nat) : Int :=
  (fs.getD k (false, 0)).2

/-- Frame `j` completes a run of `PRESS_FRAMES` consecutive pressed samples:
the samples at frames `j - (PRESS_FRAMES - 1)`, ..., `j` exist and are all `true`. -/
def completesPress (fs : List (Bool × Int)) (j : Nat) : Prop :=
  PRESS_FRAMES ≤ (j : Int) + 1 ∧ j < fs.length ∧
    ∀ k : Nat, (k : Int) < PRESS_FRAMES → sampleAt fs (j - k) = true

/-- Frame `j` completes a run of `RELEASE_FRAMES` consecutive released samples
all of which lie at frames `a` or later: the samples at frames
`j - (RELEASE_FRAMES - 1)`, ..., `j` exist, are at index `a` or more, and are all
`false`. -/
def completesRelease (fs : List (Bool × Int)) (a j : Nat) : Prop :=
  (a : Int) + RELEASE_FRAMES ≤ (j : Int) + 1 ∧ j < fs.length ∧
    ∀ k : Nat, (k : Int) < RELEASE_FRAMES → sampleAt fs (j - k) = false

/-- Frame `e` is the cooldown-expiry frame of a fire at frame `i`: the first
frame after `i` whose timestamp has reached the deadline `t_i + COOLDOWN_MS`. -/
def isExpiryFrame (fs : List (Bool × Int)) (i e : Nat) : Prop :=
  i < e ∧ e < fs.length ∧ stampAt fs i + COOLDOWN_MS ≤ stampAt fs e ∧
    ∀ k, i < k → k < e → stampAt fs k < stampAt fs i + COOLDOWN_MS

/-- Lower bound on the number of further frames before the machine can fire:
a fire needs the counter to reach `PRESS_FRAMES` in Idle, which from WaitRelease
needs `RELEASE_FRAMES` released frames first, and from Cooldown one more frame. -/
def fireDistance (s : ButtonState) : Int :=
  match s.st with
  | state.IDLE => PRESS_FRAMES - 1 - s.counter
  | state.COOLDOWN => PRESS_FRAMES + RELEASE_FRAMES
  | state.WAIT_RELEASE => PRESS_FRAMES + RELEASE_FRAMES - 1 - s.counter

/-- The sample sequence of the specification's worked example,
`[false,false,true,true,true,true,false,false,false,false]`, with timestamps 16 ms
apart up to the fire at index 5 (`t = 80`) and the cooldown deadline `80 + 400`
already reached at index 6. -/
def example_frames : List (Bool × Int) :=
  [(false, 0), (false, 16), (true, 32), (true, 48), (true, 64), (true, 80),
   (false, 480), (false, 496), (false, 512), (false, 528)]

/-- The worked example followed by one more released frame. -/
def example_frames_released : List (Bool × Int) :=
  example_frames ++ [(false, 544)]

/-- State and fire flag of one button after each frame of a sample sequence. -/
def button_trajectory (s : ButtonState) : List (Bool × Int) → List (ButtonState × Bool)
  | [] => []
  | f :: fs => debounce_step s f.1 f.2 :: button_trajectory (debounce_step s f.1 f.2).1 fs

/-- The invariant of a button's state at a frame boundary: the counter is in
`0..PRESS_FRAMES-1` in Idle, `0` in Cooldown and in `0..RELEASE_FRAMES-1` in
WaitRelease. -/
def counter_inv (s : ButtonState) : Prop :=
  match s.st with
  | state.IDLE => 0 ≤ s.counter ∧ s.counter < PRESS_FRAMES
  | state.COOLDOWN => s.counter = 0
  | state.WAIT_RELEASE => 0 ≤ s.counter ∧ s.counter < RELEASE_FRAMES

/-! ## Bus sampling and frame decode -/

/-- `static inline int gpio_read(int pin) { return (*(gpio + GPLEV0) >> pin) & 1; }`
where `lev` is the value of the 32-bit level register at the time of the read. -/
def gpio_read (lev : Nat) (pin : Nat) : Int :=
  ((((lev % 2 ^ 32) >>> pin) &&& 1 : Nat) : Int)

/-- The clocked read loop `bits[i] = gpio_read(DATA_PIN)`: `lev i` is the value
of the level register when bit `i` is sampled. -/
def read_bits (lev : Nat → Nat) : Nat → Int :=
  fun i => gpio_read (lev i) DATA_PIN

/-- One polling cycle's input: the array `bits[NUM_BUTTONS]` and `t = now_ms()`. -/
structure Frame where
  bits : Nat → Int
  t : Int

/-- `int pressed = (bits[i] == 0);` -/
def pressed (bits : Nat → Int) (i : Nat) : Bool :=
  decide (bits i = 0)

/-! ## Action dispatch -/

/-- The two MQTT topics read from the environment (`topic_light1`, `topic_light2`). -/
structure Config where
  topic_light1 : String
  topic_light2 : String

/-- The observable actions of the fire branch, in program order:
`printf("Pressed: %s", buttons[i])` (recorded by the button index `i`),
`mqtt_publish(topic, payload)` and `adb_keyevent(keycode)`. -/
inductive Effect where
  | printf_pressed (i : Nat)
  | mqtt_publish (topic : String) (payload : String)
  | adb_keyevent (keycode : String)
deriving DecidableEq, Repr

/-- The button-name table `buttons[]` of `main`, in shift order. -/
def buttons : List String :=
  ["B", "Y", "Select", "Start", "Up", "Down", "Left", "Right", "A", "X", "L", "R"]

/-- `static const char *adb_keymap[NUM_BUTTONS]` (`none` is `NULL`: no ADB action). -/
def adb_keymap : List (Option String) :=
  [ some "KEYCODE_BACK",        -- B
    none,                       -- Y
    some "KEYCODE_MENU",        -- SELECT
    some "KEYCODE_TV_POWER",    -- START
    some "KEYCODE_DPAD_UP",     -- UP
    some "KEYCODE_DPAD_DOWN",   -- DOWN
    some "KEYCODE_DPAD_LEFT",   -- LEFT
    some "KEYCODE_DPAD_RIGHT",  -- RIGHT
    some "KEYCODE_ENTER",       -- A
    none,                       -- X
    some "KEYCODE_PAGE_UP",     -- L
    some "KEYCODE_PAGE_DOWN" ]  -- R

/-- The mutable state of `main`'s loop: the per-button arrays and the globals
`light1_on`, `light2_on`. -/
structure Machine where
  button : Nat → ButtonState
  light1_on : Int
  light2_on : Int

/-- C's logical negation `!x` on an `int`. -/
def c_not (x : Int) : Int :=
  if x = 0 then 1 else 0

/-- `light ? "ON" : "OFF"` -/
def on_off (x : Int) : String :=
  if x ≠ 0 then "ON" else "OFF"

/-- The "Light control" part of the fire branch:
`if (i == BTN_X) { light1_on = !light1_on; ... mqtt_publish(topic_light1, p); }
 else if (i == BTN_Y) { light2_on = !light2_on; ... mqtt_publish(topic_light2, p); }`. -/
def light_control (cfg : Config) (i : Nat) (M : Machine) : Machine × List Effect :=
  if i = BTN_X then
    (Machine.mk M.button (c_not M.light1_on) M.light2_on,
      [Effect.mqtt_publish cfg.topic_light1 (on_off (c_not M.light1_on))])
  else if i = BTN_Y then
    (Machine.mk M.button M.light1_on (c_not M.light2_on),
      [Effect.mqtt_publish cfg.topic_light2 (on_off (c_not M.light2_on))])
  else
    (M, [])

/-- The "ADB TV control" part of the fire branch:
`if (adb_keymap[i]) { adb_keyevent(adb_keymap[i]); ... }`, for a keycode table
`keymap`. -/
def adb_control (keymap : List (Option String)) (i : Nat) : List Effect :=
  match keymap.getD i none with
  | some k => [Effect.adb_keyevent k]
  | none => []

/-- Everything the fire branch does besides the state change of the button:
the `printf`, the light control and the ADB control, in that order. -/
def fire_actions (cfg : Config) (keymap : List (Option String)) (i : Nat) (M : Machine) :
    Machine × List Effect :=
  ((light_control cfg i M).1,
    Effect.printf_pressed i :: ((light_control cfg i M).2 ++ adb_control keymap i))

/-- One iteration `i` of the per-button loop for frame `f`; `acc` is the machine
so far and the effects emitted so far in this frame. -/
def button_iter (cfg : Config) (f : Frame) (acc : Machine × List Effect) (i : Nat) :
    Machine × List Effect :=
  if (debounce_step (acc.1.button i) (pressed f.bits i) f.t).2 then
    (Machine.mk
        (Function.update (fire_actions cfg adb_keymap i acc.1).1.button i
          (debounce_step (acc.1.button i) (pressed f.bits i) f.t).1)
        (fire_actions cfg adb_keymap i acc.1).1.light1_on
        (fire_actions cfg adb_keymap i acc.1).1.light2_on,
      acc.2 ++ (fire_actions cfg adb_keymap i acc.1).2)
  else
    (Machine.mk
        (Function.update acc.1.button i
          (debounce_step (acc.1.button i) (pressed f.bits i) f.t).1)
        acc.1.light1_on acc.1.light2_on,
      acc.2)

/-- The loop `for (int i = 0; i < NUM_BUTTONS; i++) { ... }` over one frame:
the new machine and the effects of the frame. -/
def process_frame (cfg : Config) (M : Machine) (f : Frame) : Machine × List Effect :=
  (List.range NUM_BUTTONS).foldl (button_iter cfg f) (M, [])

/-- The machine after the initialisation loop of `main`: every button Idle with
counter 0 and deadline 0, both lights off. -/
def init_machine : Machine :=
  Machine.mk (fun _ => init_button) 0 0

/-- The `while (running)` loop over a sequence of frames: the machine after each
frame together with that frame's effects. -/
def machine_run (cfg : Config) (M : Machine) : List Frame → List (Machine × List Effect)
  | [] => []
  | f :: fs => process_frame cfg M f :: machine_run cfg (process_frame cfg M f).1 fs

/-- The machine after all frames of a sequence. -/
def machine_after (cfg : Config) (M : Machine) : List Frame → Machine
  | [] => M
  | f :: fs => machine_after cfg (process_frame cfg M f).1 fs

/-- All effects of a sequence of frames, in order. -/
def machine_effects (cfg : Config) (M : Machine) : List Frame → List Effect
  | [] => []
  | f :: fs => (process_frame cfg M f).2 ++ machine_effects cfg (process_frame cfg M f).1 fs

/-- Effects of iteration `i` of the per-button loop when the frame starts in
machine `M`: the fire actions if button `i` fires, nothing otherwise. -/
def iter_effects (cfg : Config) (M : Machine) (f : Frame) (i : Nat) : List Effect :=
  if (debounce_step (M.button i) (pressed f.bits i) f.t).2 then
    (fire_actions cfg adb_keymap i M).2
  else []

/-- Effects of the first `n` iterations of the per-button loop. -/
def frame_effects (cfg : Config) (M : Machine) (f : Frame) : Nat → List Effect
  | 0 => []
  | n + 1 => frame_effects cfg M f n ++ iter_effects cfg M f n

/-- What one frame's result shows of button `i`: its state after the frame and
whether it fired in the frame. -/
def button_view (i : Nat) (r : Machine × List Effect) : ButtonState × Bool :=
  (r.1.button i, decide (Effect.printf_pressed i ∈ r.2))

/-- The samples of button `i` in a sequence of frames. -/
def button_samples (i : Nat) (fs : List Frame) : List (Bool × Int) :=
  fs.map (fun f => (pressed f.bits i, f.t))

/-- An actuator request: a call of `mqtt_publish` or of `adb_keyevent` (the
`printf` line is console output, not a request). -/
def is_request : Effect → Bool
  | Effect.printf_pressed _ => false
  | Effect.mqtt_publish _ _ => true
  | Effect.adb_keyevent _ => true

/-- A light-toggle request: a call of `mqtt_publish`. -/
def is_light_request : Effect → Bool
  | Effect.mqtt_publish _ _ => true
  | _ => false

/-- A remote-keycode request: a call of `adb_keyevent`. -/
def is_key_request : Effect → Bool
  | Effect.adb_keyevent _ => true
  | _ => false

/-- One clean press: the timestamps of its pressed frames followed by the
timestamps of its released frames. -/
structure PressBlock where
  held : List Int
  released : List Int

/-- The samples of a press block: `held.length` pressed frames, then
`released.length` released frames. -/
def block_frames (b : PressBlock) : List (Bool × Int) :=
  b.held.map (fun t => (true, t)) ++ b.released.map (fun t => (false, t))

/-- A block is clean: at least `PRESS_FRAMES` pressed frames, at least
`RELEASE_FRAMES + 1` released frames, and the first released frame is at least
`COOLDOWN_MS` after the `PRESS_FRAMES`-th pressed frame. -/
def clean_block (b : PressBlock) : Prop :=
  PRESS_FRAMES ≤ (b.held.length : Int) ∧ RELEASE_FRAMES + 1 ≤ (b.released.length : Int) ∧
    b.held.getD (PRESS_FRAMES - 1).toNat 0 + COOLDOWN_MS ≤ b.released.getD 0 0

/-- The samples of a sequence of press blocks. -/
def blocks_frames : List PressBlock → List (Bool × Int)
  | [] => []
  | b :: bs => block_frames b ++ blocks_frames bs

/-- The fire pattern the specification asks of one clean press: a single fire, on
the `PRESS_FRAMES`-th pressed sample of the block. -/
def block_fires (b : PressBlock) : List Bool :=
  List.replicate (PRESS_FRAMES - 1).toNat false ++ [true] ++
    List.replicate (b.held.length - PRESS_FRAMES.toNat + b.released.length) false

/-- The fire pattern of a sequence of clean presses. -/
def blocks_fires : List PressBlock → List Bool
  | [] => []
  | b :: bs => block_fires b ++ blocks_fires bs

/-- Two clean presses, frames 16 ms apart: five pressed frames and five released
frames, then four pressed frames and six released frames. -/
def example_blocks : List PressBlock :=
  [PressBlock.mk [0, 16, 32, 48, 64] [448, 464, 480, 496, 512],
   PressBlock.mk [528, 544, 560, 576] [976, 992, 1008, 1024, 1040, 1056]]

/-! ## Basic facts about runs -/

theorem stateAt_zero (s : ButtonState) (fs : List (Bool × Int)) : stateAt s fs 0 = s := by
  simp [stateAt, run]

theorem run_append (s : ButtonState) (fs gs : List (Bool × Int)) :
    run s (fs ++ gs) = run (run s fs) gs := by
  induction fs generalizing s with
  | nil => rfl
  | cons f fs ih => simp [run, ih]

theorem fires_append (s : ButtonState) (fs gs : List (Bool × Int)) :
    fires s (fs ++ gs) = fires s fs ++ fires (run s fs) gs := by
  induction fs generalizing s with
  | nil => rfl
  | cons f fs ih => simp [run, fires, ih]

theorem fires_length (s : ButtonState) (fs : List (Bool × Int)) :
    (fires s fs).length = fs.length := by
  induction fs generalizing s with
  | nil => rfl
  | cons f fs ih => simp [fires, ih]

theorem stateAt_succ (s : ButtonState) (fs : List (Bool × Int)) (k : Nat)
    (hk : k < fs.length) :
    stateAt s fs (k + 1)
      = (debounce_step (stateAt s fs k) (sampleAt fs k) (stampAt fs k)).1 := by
  induction fs generalizing s k with
  | nil => simp at hk
  | cons f fs ih =>
    cases k with
    | zero => simp [stateAt, run, sampleAt, stampAt]
    | succ k =>
      have hk2 : k < fs.length := by simpa using hk
      have := ih (debounce_step s f.1 f.2).1 k hk2
      simpa [stateAt, run, sampleAt, stampAt] using this

theorem fireAt_eq (s : ButtonState) (fs : List (Bool × Int)) (k : Nat)
    (hk : k < fs.length) :
    fireAt s fs k
      = (debounce_step (stateAt s fs k) (sampleAt fs k) (stampAt fs k)).2 := by
  induction fs generalizing s k with
  | nil => simp at hk
  | cons f fs ih =>
    cases k with
    | zero => simp [fireAt, fires, stateAt, run, sampleAt, stampAt]
    | succ k =>
      have hk2 : k < fs.length := by simpa using hk
      have := ih (debounce_step s f.1 f.2).1 k hk2
      simpa [fireAt, fires, stateAt, run, sampleAt, stampAt] using this

theorem fireAt_lt (s : ButtonState) (fs : List (Bool × Int)) (k : Nat)
    (h : fireAt s fs k = true) : k < fs.length := by
  by_contra hk
  have : (fires s fs).length ≤ k := by rw [fires_length]; omega
  have hn : (fires s fs)[k]? = none := List.getElem?_eq_none this
  simp [fireAt, List.getD, hn] at h

theorem stateAt_length (s : ButtonState) (fs : List (Bool × Int)) :
    stateAt s fs fs.length = run s fs := by
  simp [stateAt]


theorem step_released_no_fire (s : ButtonState) (t : Int) :
    (debounce_step s false t).2 = false := by
  obtain ⟨st, c, d⟩ := s
  cases st <;> simp [debounce_step] <;> split_ifs <;> rfl

theorem fires_all_released (s : ButtonState) (ts : List Int) :
    fires s (ts.map (fun t => (false, t))) = List.replicate ts.length false := by
  induction ts generalizing s with
  | nil => rfl
  | cons t ts ih => simp [fires, step_released_no_fire, ih, List.replicate_succ]

/-! ## Single-step facts -/

theorem step_fire (s : ButtonState) (p : Bool) (t : Int)
    (h : (debounce_step s p t).2 = true) :
    s.st = state.IDLE ∧ p = true ∧ PRESS_FRAMES ≤ s.counter + 1 ∧
      (debounce_step s p t).1 = ButtonState.mk state.COOLDOWN 0 (t + COOLDOWN_MS) := by
  obtain ⟨st, c, d⟩ := s
  cases st <;> cases p <;> simp [debounce_step] at h ⊢ <;> (split_ifs at h ⊢ <;> simp_all)

theorem step_not_idle_no_fire (s : ButtonState) (p : Bool) (t : Int)
    (h : s.st ≠ state.IDLE) : (debounce_step s p t).2 = false := by
  cases hf : (debounce_step s p t).2 with
  | false => rfl
  | true => exact absurd (step_fire s p t hf).1 h

theorem step_pressed_not_idle (s : ButtonState) (t : Int) (h : s.st ≠ state.IDLE) :
    (debounce_step s true t).1.st ≠ state.IDLE := by
  obtain ⟨st, c, d⟩ := s
  cases st <;> simp [debounce_step] at h ⊢
  split_ifs <;> simp

theorem step_cooldown_wait (c d t : Int) (h : t < d) :
    ∀ p, (debounce_step (ButtonState.mk state.COOLDOWN c d) p t).1
      = ButtonState.mk state.COOLDOWN c d := by
  intro p
  have : ¬ (t ≥ d) := by omega
  simp [debounce_step, this]

theorem step_cooldown_expire (c d t : Int) (h : d ≤ t) :
    ∀ p, (debounce_step (ButtonState.mk state.COOLDOWN c d) p t).1
      = ButtonState.mk state.WAIT_RELEASE 0 d := by
  intro p
  have : t ≥ d := h
  simp [debounce_step, this]

theorem step_distance (s : ButtonState) (p : Bool) (t : Int) (h : 0 ≤ s.counter) :
    0 ≤ (debounce_step s p t).1.counter ∧
      fireDistance s - 1 ≤ fireDistance (debounce_step s p t).1 := by
  obtain ⟨st, c, d⟩ := s
  simp only at h
  cases st <;> cases p <;>
    simp only [debounce_step, PRESS_FRAMES, RELEASE_FRAMES] <;>
    split_ifs <;> simp [fireDistance, PRESS_FRAMES, RELEASE_FRAMES] <;> omega

theorem step_fire_distance (s : ButtonState) (p : Bool) (t : Int)
    (h : (debounce_step s p t).2 = true) : fireDistance s ≤ 0 := by
  obtain ⟨h1, _, h3, _⟩ := step_fire s p t h
  obtain ⟨st, c, d⟩ := s
  simp only at h1 h3
  subst h1
  simp only [fireDistance, PRESS_FRAMES] at h3 ⊢
  omega

/-! ## Facts about trajectories -/

theorem fireAt_state (s : ButtonState) (fs : List (Bool × Int)) (i : Nat)
    (h : fireAt s fs i = true) :
    i < fs.length ∧ (stateAt s fs i).st = state.IDLE ∧ sampleAt fs i = true ∧
      stateAt s fs (i + 1)
        = ButtonState.mk state.COOLDOWN 0 (stampAt fs i + COOLDOWN_MS) := by
  have hlt := fireAt_lt s fs i h
  rw [fireAt_eq s fs i hlt] at h
  obtain ⟨h1, h2, _, h4⟩ := step_fire _ _ _ h
  exact ⟨hlt, h1, h2, by rw [stateAt_succ s fs i hlt, h4]⟩

theorem fireAt_false_of_not_idle (s : ButtonState) (fs : List (Bool × Int)) (k : Nat)
    (h : (stateAt s fs k).st ≠ state.IDLE) : fireAt s fs k = false := by
  cases hf : fireAt s fs k with
  | false => rfl
  | true => exact absurd (fireAt_state s fs k hf).2.1 h

theorem cooldown_stays (s : ButtonState) (fs : List (Bool × Int)) (a : Nat) (c d : Int)
    (ha : stateAt s fs a = ButtonState.mk state.COOLDOWN c d) (m : Nat)
    (hm : a + m ≤ fs.length)
    (hlt : ∀ k, a ≤ k → k < a + m → stampAt fs k < d) :
    stateAt s fs (a + m) = ButtonState.mk state.COOLDOWN c d := by
  induction m with
  | zero => simpa using ha
  | succ m ih =>
    have h1 := ih (by omega) (fun k h1 h2 => hlt k h1 (by omega))
    have e : a + (m + 1) = (a + m) + 1 := by omega
    rw [e, stateAt_succ s fs (a + m) (by omega), h1]
    exact step_cooldown_wait c d _ (hlt (a + m) (by omega) (by omega)) _

theorem distance_along (s : ButtonState) (fs : List (Bool × Int)) (a : Nat)
    (ha : 0 ≤ (stateAt s fs a).counter) (m : Nat) (hm : a + m ≤ fs.length) :
    0 ≤ (stateAt s fs (a + m)).counter ∧
      fireDistance (stateAt s fs a) - m ≤ fireDistance (stateAt s fs (a + m)) := by
  induction m with
  | zero => exact ⟨by simpa using ha, by simp⟩
  | succ m ih =>
    obtain ⟨h0, hd⟩ := ih (by omega)
    have e : a + (m + 1) = (a + m) + 1 := by omega
    rw [e, stateAt_succ s fs (a + m) (by omega)]
    obtain ⟨g0, gd⟩ := step_distance (stateAt s fs (a + m))
      (sampleAt fs (a + m)) (stampAt fs (a + m)) h0
    refine ⟨g0, ?_⟩
    push_cast
    omega

theorem fire_after_distance (s : ButtonState) (fs : List (Bool × Int)) (a j : Nat)
    (ha : 0 ≤ (stateAt s fs a).counter) (haj : a ≤ j) (hf : fireAt s fs j = true) :
    (a : Int) + fireDistance (stateAt s fs a) ≤ j := by
  have hlt := fireAt_lt s fs j hf
  obtain ⟨_, hd⟩ := distance_along s fs a ha (j - a) (by omega)
  have e : a + (j - a) = j := by omega
  rw [e] at hd
  rw [fireAt_eq s fs j hlt] at hf
  have := step_fire_distance _ _ _ hf
  have hc : ((j - a : Nat) : Int) = (j : Int) - a := by omega
  rw [hc] at hd
  omega

/-! ## First fire (debounce of the press) -/

theorem idle_before_first_run (d : Int) (fs : List (Bool × Int)) (n : Nat)
    (hn : n ≤ fs.length) (hno : ∀ j, j < n → ¬ completesPress fs j) :
    ∃ c : Nat, c ≤ 3 ∧ c ≤ n ∧
      stateAt (ButtonState.mk state.IDLE 0 d) fs n = ButtonState.mk state.IDLE c d ∧
      (∀ k, k < c → sampleAt fs (n - 1 - k) = true) ∧
      (c < n → sampleAt fs (n - 1 - c) = false) := by
  induction n with
  | zero => exact ⟨0, by omega, by omega, by simp [stateAt_zero], by intro k hk; omega, by omega⟩
  | succ n ih =>
    obtain ⟨c, hc3, hcn, hst, htrue, hfalse⟩ :=
      ih (by omega) (fun j hj => hno j (by omega))
    have hlt : n < fs.length := by omega
    rw [stateAt_succ _ _ _ hlt, hst]
    cases hp : sampleAt fs n with
    | false =>
      refine ⟨0, by omega, by omega, ?_, by intro k hk; omega, ?_⟩
      · simp [debounce_step]
      · intro _; simpa using hp
    | true =>
      have hc2 : c ≤ 2 := by
        by_contra hcon
        have hc : c = 3 := by omega
        apply hno n (by omega)
        refine ⟨by simp only [PRESS_FRAMES]; omega, hlt, ?_⟩
        intro k hk
        simp only [PRESS_FRAMES] at hk
        rcases Nat.eq_zero_or_pos k with h0 | hpos
        · subst h0; simpa using hp
        · have := htrue (k - 1) (by omega)
          have e : n - 1 - (k - 1) = n - k := by omega
          rw [e] at this; exact this
      refine ⟨c + 1, by omega, by omega, ?_, ?_, ?_⟩
      · have : ¬ ((c : Int) + 1 ≥ PRESS_FRAMES) := by simp only [PRESS_FRAMES]; omega
        simp [debounce_step, this]
      · intro k hk
        rcases Nat.eq_zero_or_pos k with h0 | hpos
        · subst h0; simpa using hp
        · have := htrue (k - 1) (by omega)
          have e : n - 1 - (k - 1) = n + 1 - 1 - k := by omega
          rw [e] at this; exact this
      · intro h
        have := hfalse (by omega)
        have e : n - 1 - c = n + 1 - 1 - (c + 1) := by omega
        rw [e] at this; exact this

theorem fire_iff_completes_of_none_before (d : Int) (fs : List (Bool × Int)) (n : Nat)
    (hno : ∀ j, j < n → ¬ completesPress fs j) :
    fireAt (ButtonState.mk state.IDLE 0 d) fs n = true ↔ completesPress fs n := by
  by_cases hlt : n < fs.length
  · obtain ⟨c, hc3, hcn, hst, htrue, hfalse⟩ :=
      idle_before_first_run d fs n (by omega) hno
    rw [fireAt_eq _ _ _ hlt, hst]
    constructor
    · intro hf
      cases hp : sampleAt fs n with
      | false => simp [debounce_step, hp] at hf
      | true =>
        have hc : c = 3 := by
          by_contra hcon
          have : ¬ ((c : Int) + 1 ≥ PRESS_FRAMES) := by simp only [PRESS_FRAMES]; omega
          simp [debounce_step, hp, this] at hf
        refine ⟨by simp only [PRESS_FRAMES]; omega, hlt, ?_⟩
        intro k hk
        simp only [PRESS_FRAMES] at hk
        rcases Nat.eq_zero_or_pos k with h0 | hpos
        · subst h0; simpa using hp
        · have := htrue (k - 1) (by omega)
          have e : n - 1 - (k - 1) = n - k := by omega
          rw [e] at this; exact this
    · rintro ⟨h4, _, hall⟩
      simp only [PRESS_FRAMES] at h4 hall
      have hp : sampleAt fs n = true := by simpa using hall 0 (by omega)
      have hc : c = 3 := by
        by_contra hcon
        have hf := hfalse (by omega)
        have ht := hall (c + 1) (by omega)
        have e : n - 1 - c = n - (c + 1) := by omega
        rw [e] at hf
        rw [hf] at ht
        exact Bool.noConfusion ht
      subst hc
      simp [debounce_step, hp, PRESS_FRAMES]
  · constructor
    · intro hf; exact absurd (fireAt_lt _ _ _ hf) hlt
    · rintro ⟨_, h, _⟩; exact absurd h hlt

theorem no_fire_before_iff (d : Int) (fs : List (Bool × Int)) (n : Nat) :
    (∀ j, j < n → fireAt (ButtonState.mk state.IDLE 0 d) fs j = false) ↔
      (∀ j, j < n → ¬ completesPress fs j) := by
  induction n with
  | zero => constructor <;> intro _ j hj <;> omega
  | succ n ih =>
    constructor
    · intro h j hj
      have hprev := ih.mp (fun j hj => h j (by omega))
      rcases Nat.lt_succ_iff_lt_or_eq.mp hj with hlt | heq
      · exact hprev j hlt
      · subst heq
        intro hc
        have := (fire_iff_completes_of_none_before d fs j hprev).mpr hc
        rw [h j (by omega)] at this
        exact Bool.noConfusion this
    · intro h j hj
      have hprev : ∀ j, j < n → ¬ completesPress fs j := fun j hj => h j (by omega)
      rcases Nat.lt_succ_iff_lt_or_eq.mp hj with hlt | heq
      · exact ih.mpr hprev j hlt
      · subst heq
        cases hf : fireAt (ButtonState.mk state.IDLE 0 d) fs j with
        | false => rfl
        | true =>
          exact absurd ((fire_iff_completes_of_none_before d fs j hprev).mp hf) (h j (by omega))

/-- C1: a button's machine started in Idle with counter 0 (any stored deadline `d`)
and fed any finite sequence `fs` of `(pressed, timestamp)` samples: the first fire
happens exactly on the frame that completes the earliest run of `PRESS_FRAMES`
consecutive pressed samples; some fire is emitted iff such a run exists; a
sequence whose runs of pressed samples are all shorter than `PRESS_FRAMES` emits
no fire; and for `[false,false,true,true,true,true,false,false,false,false]`,
whatever the timestamps, the only fire is at index 5. -/
theorem first_fire_iff_first_press_run (d : Int) (fs : List (Bool × Int)) :
    (∀ j, (fireAt (ButtonState.mk state.IDLE 0 d) fs j = true ∧
            ∀ i, i < j → fireAt (ButtonState.mk state.IDLE 0 d) fs i = false) ↔
          (completesPress fs j ∧ ∀ i, i < j → ¬ completesPress fs i)) ∧
    ((∃ j, fireAt (ButtonState.mk state.IDLE 0 d) fs j = true) ↔
      ∃ j, completesPress fs j) ∧
    ((∀ j, ¬ completesPress fs j) →
      ∀ j, fireAt (ButtonState.mk state.IDLE 0 d) fs j = false) ∧
    (∀ t0 t1 t2 t3 t4 t5 t6 t7 t8 t9 : Int,
      fires (ButtonState.mk state.IDLE 0 d)
          [(false, t0), (false, t1), (true, t2), (true, t3), (true, t4), (true, t5),
           (false, t6), (false, t7), (false, t8), (false, t9)]
        = [false, false, false, false, false, true, false, false, false, false]) := by
  have key : ∀ j, (fireAt (ButtonState.mk state.IDLE 0 d) fs j = true ∧
            ∀ i, i < j → fireAt (ButtonState.mk state.IDLE 0 d) fs i = false) ↔
          (completesPress fs j ∧ ∀ i, i < j → ¬ completesPress fs i) := by
    intro j
    constructor
    · rintro ⟨hf, hno⟩
      have hno2 := (no_fire_before_iff d fs j).mp hno
      exact ⟨(fire_iff_completes_of_none_before d fs j hno2).mp hf, hno2⟩
    · rintro ⟨hc, hno⟩
      exact ⟨(fire_iff_completes_of_none_before d fs j hno).mpr hc,
        (no_fire_before_iff d fs j).mpr hno⟩
  have none : (∀ j, ¬ completesPress fs j) →
      ∀ j, fireAt (ButtonState.mk state.IDLE 0 d) fs j = false := by
    intro h j
    exact (no_fire_before_iff d fs (j + 1)).mpr (fun i _ => h i) j (by omega)
  refine ⟨key, ?_, none, ?_⟩
  · constructor
    · rintro ⟨j, hf⟩
      by_contra hcon
      have hall : ∀ j, ¬ completesPress fs j := fun j hj => hcon ⟨j, hj⟩
      rw [none hall j] at hf
      exact Bool.noConfusion hf
    · rintro ⟨j, hc⟩
      by_contra hcon
      have hall : ∀ i, i < j + 1 → fireAt (ButtonState.mk state.IDLE 0 d) fs i = false := by
        intro i _
        cases hf : fireAt (ButtonState.mk state.IDLE 0 d) fs i with
        | false => rfl
        | true => exact absurd ⟨i, hf⟩ hcon
      exact (no_fire_before_iff d fs (j + 1)).mp hall j (by omega) hc
  · intro t0 t1 t2 t3 t4 t5 t6 t7 t8 t9
    have h := fires_append (ButtonState.mk state.IDLE 0 d)
      [(false, t0), (false, t1), (true, t2), (true, t3), (true, t4), (true, t5)]
      ([t6, t7, t8, t9].map (fun t => (false, t)))
    rw [fires_all_released] at h
    simpa [fires, debounce_step, PRESS_FRAMES] using h

/-! ## One fire per press, spacing of fires -/

/-- C2: at most one fire per press.  From any state `s` of a button's machine
(in particular any reachable one) and for any timestamps: if the button fires at
frame `i` and the samples at frames `i+1..j` are all pressed, then it does not
fire at any frame in `i+1..j`. -/
theorem one_fire_per_press (s : ButtonState) (fs : List (Bool × Int)) (i j : Nat)
    (hfire : fireAt s fs i = true)
    (hheld : ∀ k, i < k → k ≤ j → sampleAt fs k = true) :
    ∀ k, i < k → k ≤ j → fireAt s fs k = false := by
  intro k hik hkj
  by_cases hlen : k < fs.length
  · apply fireAt_false_of_not_idle
    have hstep : ∀ m, i + 1 + m ≤ k → (stateAt s fs (i + 1 + m)).st ≠ state.IDLE := by
      intro m
      induction m with
      | zero =>
        intro _
        rw [(fireAt_state s fs i hfire).2.2.2]
        simp
      | succ m ih =>
        intro hm
        have e : i + 1 + (m + 1) = (i + 1 + m) + 1 := by omega
        rw [e, stateAt_succ s fs (i + 1 + m) (by omega),
          hheld (i + 1 + m) (by omega) (by omega)]
        exact step_pressed_not_idle _ _ (ih (by omega))
    have := hstep (k - (i + 1)) (by omega)
    have e : i + 1 + (k - (i + 1)) = k := by omega
    rw [e] at this
    exact this
  · cases hf : fireAt s fs k with
    | false => rfl
    | true => exact absurd (fireAt_lt s fs k hf) hlen

/-- Instance of C2: a button held for eight frames (with the cooldown expiring
during the hold) fires on frame 3 and on none of the frames 4..7. -/
theorem one_fire_per_press_witness :
    fireAt init_button
        [(true, 0), (true, 16), (true, 32), (true, 48), (true, 64), (true, 500),
         (true, 516), (true, 532)] 3 = true ∧
      ∀ k, 3 < k → k ≤ 7 →
        fireAt init_button
          [(true, 0), (true, 16), (true, 32), (true, 48), (true, 64), (true, 500),
           (true, 516), (true, 532)] k = false :=
  ⟨by decide,
   one_fire_per_press init_button
     [(true, 0), (true, 16), (true, 32), (true, 48), (true, 64), (true, 500),
      (true, 516), (true, 532)] 3 7 (by decide)
     (by intro k h1 h2; interval_cases k <;> rfl)⟩

/-- C3: minimum spacing between fires.  If a button fires at frames `i < j`
(from any starting state), then the cooldown-expiry frame `e` of the fire at `i`
exists, the machine is in Cooldown for the `c = e - i` frames `i+1..e` and in
WaitRelease right after frame `e`, and `j - i ≥ PRESS_FRAMES + c + RELEASE_FRAMES`;
moreover, when the timestamps are non-decreasing, the timestamp of frame `j` is at
least `COOLDOWN_MS` after that of frame `i`. -/
theorem min_spacing_between_fires (s : ButtonState) (fs : List (Bool × Int)) (i j : Nat)
    (hij : i < j) (hi : fireAt s fs i = true) (hj : fireAt s fs j = true) :
    ∃ e, isExpiryFrame fs i e ∧
      (∀ k, i < k → k ≤ e → (stateAt s fs k).st = state.COOLDOWN) ∧
      (stateAt s fs (e + 1)).st = state.WAIT_RELEASE ∧
      PRESS_FRAMES + ((e : Int) - i) + RELEASE_FRAMES ≤ (j : Int) - i ∧
      ((∀ a b, a ≤ b → b < fs.length → stampAt fs a ≤ stampAt fs b) →
        stampAt fs i + COOLDOWN_MS ≤ stampAt fs j) := by
  have hjlen := fireAt_lt s fs j hj
  have hcd := (fireAt_state s fs i hi).2.2.2
  have hjidle := (fireAt_state s fs j hj).2.1
  -- while no timestamp has reached the deadline the machine stays in Cooldown
  have stay : ∀ b, i < b → b ≤ j →
      (∀ k, i < k → k < b → stampAt fs k < stampAt fs i + COOLDOWN_MS) →
      stateAt s fs b = ButtonState.mk state.COOLDOWN 0 (stampAt fs i + COOLDOWN_MS) := by
    intro b hib hbj hlt
    have := cooldown_stays s fs (i + 1) 0 _ hcd (b - (i + 1)) (by omega)
      (fun k h1 h2 => hlt k (by omega) (by omega))
    have e : i + 1 + (b - (i + 1)) = b := by omega
    rw [e] at this
    exact this
  have hex : ∃ e, i < e ∧ stampAt fs i + COOLDOWN_MS ≤ stampAt fs e := by
    by_contra hcon
    have hall : ∀ k, i < k → k < j → stampAt fs k < stampAt fs i + COOLDOWN_MS := by
      intro k hk _
      by_contra hge
      exact hcon ⟨k, hk, by omega⟩
    have := stay j hij (le_refl j) hall
    rw [this] at hjidle
    exact state.noConfusion hjidle
  obtain ⟨he1, he2⟩ := Nat.find_spec hex
  have hmin : ∀ k, i < k → k < Nat.find hex →
      stampAt fs k < stampAt fs i + COOLDOWN_MS := by
    intro k hk hlt
    by_contra hge
    exact Nat.find_min hex hlt ⟨hk, by omega⟩
  have hej : Nat.find hex < j := by
    by_contra hge
    have := stay j hij (le_refl j) (fun k h1 h2 => hmin k h1 (by omega))
    rw [this] at hjidle
    exact state.noConfusion hjidle
  have hste := stay (Nat.find hex) he1 (by omega) hmin
  have hwait : stateAt s fs (Nat.find hex + 1)
      = ButtonState.mk state.WAIT_RELEASE 0 (stampAt fs i + COOLDOWN_MS) := by
    rw [stateAt_succ s fs _ (by omega), hste]
    exact step_cooldown_expire 0 _ _ he2 _
  refine ⟨Nat.find hex, ⟨he1, by omega, he2, hmin⟩, ?_, by rw [hwait], ?_, ?_⟩
  · intro k hik hke
    rw [stay k hik (by omega) (fun m h1 h2 => hmin m h1 (by omega))]
  · have := fire_after_distance s fs (Nat.find hex + 1) j (by rw [hwait]) (by omega) hj
    rw [hwait] at this
    simp only [fireDistance, PRESS_FRAMES, RELEASE_FRAMES] at this ⊢
    push_cast at this
    omega
  · intro hmono
    exact le_trans he2 (hmono _ _ (by omega) hjlen)

/-- Instance of C3: press, hold through the cooldown, release for four frames and
press again.  Fires at frames 3 and 12; the expiry frame is 4 (`c = 1`), so the
spacing `12 - 3 = 9` is exactly `PRESS_FRAMES + c + RELEASE_FRAMES`. -/
theorem min_spacing_between_fires_witness :
    fireAt init_button
        [(true, 0), (true, 16), (true, 32), (true, 48), (true, 448), (false, 464),
         (false, 480), (false, 496), (false, 512), (true, 528), (true, 544),
         (true, 560), (true, 576)] 3 = true ∧
      fireAt init_button
        [(true, 0), (true, 16), (true, 32), (true, 48), (true, 448), (false, 464),
         (false, 480), (false, 496), (false, 512), (true, 528), (true, 544),
         (true, 560), (true, 576)] 12 = true ∧
      ∃ e, isExpiryFrame
          [(true, 0), (true, 16), (true, 32), (true, 48), (true, 448), (false, 464),
           (false, 480), (false, 496), (false, 512), (true, 528), (true, 544),
           (true, 560), (true, 576)] 3 e ∧
        PRESS_FRAMES + ((e : Int) - (3 : Nat)) + RELEASE_FRAMES ≤ ((12 : Nat) : Int) - (3 : Nat) :=
  ⟨by decide, by decide,
   (min_spacing_between_fires init_button
     [(true, 0), (true, 16), (true, 32), (true, 48), (true, 448), (false, 464),
      (false, 480), (false, 496), (false, 512), (true, 528), (true, 544),
      (true, 560), (true, 576)] 3 12 (by decide) (by decide) (by decide)).imp
     (fun _ h => ⟨h.1, h.2.2.2.1⟩)⟩

/-! ## Re-arm after release -/

theorem wait_before_first_release_run (s : ButtonState) (fs : List (Bool × Int))
    (a : Nat) (d : Int)
    (ha : stateAt s fs a = ButtonState.mk state.WAIT_RELEASE 0 d) (m : Nat)
    (hn : a + m ≤ fs.length) (hno : ∀ j, j < a + m → ¬ completesRelease fs a j) :
    ∃ c : Nat, c ≤ 3 ∧ c ≤ m ∧
      stateAt s fs (a + m) = ButtonState.mk state.WAIT_RELEASE c d ∧
      (∀ k, k < c → sampleAt fs (a + m - 1 - k) = false) ∧
      (c < m → sampleAt fs (a + m - 1 - c) = true) := by
  induction m with
  | zero =>
    exact ⟨0, by omega, by omega, by simpa using ha, by intro k hk; omega, by omega⟩
  | succ m ih =>
    obtain ⟨c, hc3, hcm, hst, hrel, hprs⟩ :=
      ih (by omega) (fun j hj => hno j (by omega))
    have hlt : a + m < fs.length := by omega
    have e : a + (m + 1) = (a + m) + 1 := by omega
    rw [e, stateAt_succ _ _ _ hlt, hst]
    cases hp : sampleAt fs (a + m) with
    | true =>
      refine ⟨0, by omega, by omega, ?_, by intro k hk; omega, ?_⟩
      · simp [debounce_step]
      · intro _; simpa using hp
    | false =>
      have hc2 : c ≤ 2 := by
        by_contra hcon
        have hc : c = 3 := by omega
        apply hno (a + m) (by omega)
        refine ⟨by simp only [RELEASE_FRAMES]; omega, hlt, ?_⟩
        intro k hk
        simp only [RELEASE_FRAMES] at hk
        rcases Nat.eq_zero_or_pos k with h0 | hpos
        · subst h0; simpa using hp
        · have := hrel (k - 1) (by omega)
          have e2 : a + m - 1 - (k - 1) = a + m - k := by omega
          rw [e2] at this; exact this
      refine ⟨c + 1, by omega, by omega, ?_, ?_, ?_⟩
      · have : ¬ ((c : Int) + 1 ≥ RELEASE_FRAMES) := by simp only [RELEASE_FRAMES]; omega
        simp [debounce_step, this]
      · intro k hk
        rcases Nat.eq_zero_or_pos k with h0 | hpos
        · subst h0; simpa using hp
        · have := hrel (k - 1) (by omega)
          have e2 : a + m - 1 - (k - 1) = a + m + 1 - 1 - k := by omega
          rw [e2] at this; exact this
      · intro h
        have := hprs (by omega)
        have e2 : a + m - 1 - c = a + m + 1 - 1 - (c + 1) := by omega
        rw [e2] at this; exact this

/-- C4 (as amended): after a fire at frame `i`, let `e` be the cooldown-expiry
frame (the first later frame whose timestamp has reached `t_i + COOLDOWN_MS`).
Frame `e` only moves the machine from Cooldown to WaitRelease; its own sample is
not counted.  The machine is back in Idle with counter 0 right after frame `r`,
the frame completing the first run of `RELEASE_FRAMES` consecutive released
samples lying strictly after `e`, and it is not in Idle at any frame boundary
between the fire and that moment. -/
theorem rearm_after_release (s : ButtonState) (fs : List (Bool × Int)) (i e r : Nat)
    (hfire : fireAt s fs i = true) (hexp : isExpiryFrame fs i e)
    (hrel : completesRelease fs (e + 1) r)
    (hfirst : ∀ j, j < r → ¬ completesRelease fs (e + 1) j) :
    stateAt s fs (r + 1) = ButtonState.mk state.IDLE 0 (stampAt fs i + COOLDOWN_MS) ∧
      (∀ k, i < k → k ≤ e → (stateAt s fs k).st = state.COOLDOWN) ∧
      (∀ k, e < k → k ≤ r → (stateAt s fs k).st = state.WAIT_RELEASE) := by
  obtain ⟨hie, helen, hge, hlt⟩ := hexp
  obtain ⟨hr4, hrlen, hrall⟩ := hrel
  simp only [RELEASE_FRAMES] at hr4 hrall
  have hcd := (fireAt_state s fs i hfire).2.2.2
  have stay : ∀ b, i < b → b ≤ e →
      stateAt s fs b = ButtonState.mk state.COOLDOWN 0 (stampAt fs i + COOLDOWN_MS) := by
    intro b hib hbe
    have := cooldown_stays s fs (i + 1) 0 _ hcd (b - (i + 1)) (by omega)
      (fun k h1 h2 => hlt k (by omega) (by omega))
    have e1 : i + 1 + (b - (i + 1)) = b := by omega
    rw [e1] at this
    exact this
  have hwait : stateAt s fs (e + 1)
      = ButtonState.mk state.WAIT_RELEASE 0 (stampAt fs i + COOLDOWN_MS) := by
    rw [stateAt_succ s fs e helen, stay e hie (le_refl e)]
    exact step_cooldown_expire 0 _ _ hge _
  have inwait : ∀ k, e < k → k ≤ r → ∃ c : Nat, c ≤ 3 ∧ c ≤ k - (e + 1) ∧
      stateAt s fs k = ButtonState.mk state.WAIT_RELEASE c (stampAt fs i + COOLDOWN_MS) ∧
      (∀ m, m < c → sampleAt fs (k - 1 - m) = false) ∧
      (c < k - (e + 1) → sampleAt fs (k - 1 - c) = true) := by
    intro k hek hkr
    have := wait_before_first_release_run s fs (e + 1) _ hwait (k - (e + 1)) (by omega)
      (fun j hj => hfirst j (by omega))
    have e1 : e + 1 + (k - (e + 1)) = k := by omega
    rw [e1] at this
    exact this
  refine ⟨?_, fun k h1 h2 => by rw [stay k h1 h2], ?_⟩
  · obtain ⟨c, hc3, hcm, hst, hfalse, htrue⟩ := inwait r (by omega) (le_refl r)
    have hp : sampleAt fs r = false := by simpa using hrall 0 (by omega)
    have hc : c = 3 := by
      by_contra hcon
      have ht := htrue (by omega)
      have hf := hrall (c + 1) (by omega)
      have e1 : r - 1 - c = r - (c + 1) := by omega
      rw [e1, hf] at ht
      exact Bool.noConfusion ht
    subst hc
    rw [stateAt_succ s fs r hrlen, hst, hp]
    simp [debounce_step, RELEASE_FRAMES]
  · intro k h1 h2
    obtain ⟨c, _, _, hst, _, _⟩ := inwait k h1 h2
    rw [hst]

/-- Instance of the amended C4 on the worked example extended by one released
frame: fire at index 5, expiry frame 6, so the four released frames that count
are 7..10; after index 9 the machine is still in WaitRelease with counter 3, and
after index 10 it is in Idle with counter 0. -/
theorem rearm_after_release_witness :
    fireAt init_button example_frames_released 5 = true ∧
      isExpiryFrame example_frames_released 5 6 ∧
      stateAt init_button example_frames_released 10
        = ButtonState.mk state.WAIT_RELEASE 3 480 ∧
      stateAt init_button example_frames_released 11 = ButtonState.mk state.IDLE 0 480 :=
  have hexp : isExpiryFrame example_frames_released 5 6 :=
    ⟨by decide, by decide, by decide, fun k h1 h2 => by omega⟩
  ⟨by decide, hexp, by decide,
   (rearm_after_release init_button example_frames_released 5 6 10 (by decide) hexp
     ⟨by decide, by decide, fun k hk => by
        simp only [RELEASE_FRAMES] at hk
        have : k < 4 := by omega
        interval_cases k <;> rfl⟩
     (fun j hj hc => by
        have := hc.1
        simp only [RELEASE_FRAMES] at this
        push_cast at this
        omega)).1⟩

/-- Counterexample to C4 as stated: on the worked example with the cooldown
deadline set by the fire at index 5 already reached at index 6, the machine after
the last sample (index 9) is in WaitRelease with counter 3, not in Idle; and no
choice of timestamps with the deadline reached at index 6 makes it end in Idle. -/
theorem rearm_claim_counterexample :
    fireAt init_button example_frames 5 = true ∧
      stampAt example_frames 5 + COOLDOWN_MS ≤ stampAt example_frames 6 ∧
      run init_button example_frames = ButtonState.mk state.WAIT_RELEASE 3 480 ∧
      ¬ ∃ t0 t1 t2 t3 t4 t5 t6 t7 t8 t9 : Int, t5 + COOLDOWN_MS ≤ t6 ∧
          (run init_button
            [(false, t0), (false, t1), (true, t2), (true, t3), (true, t4), (true, t5),
             (false, t6), (false, t7), (false, t8), (false, t9)]).st = state.IDLE := by
  refine ⟨by decide, by decide, by decide, ?_⟩
  rintro ⟨t0, t1, t2, t3, t4, t5, t6, t7, t8, t9, h6, hidle⟩
  simp [run, debounce_step, init_button, PRESS_FRAMES, RELEASE_FRAMES, h6] at hidle

/-! ## The per-button loop over one frame -/

theorem light_control_button (cfg : Config) (i : Nat) (M : Machine) :
    (light_control cfg i M).1.button = M.button := by
  unfold light_control
  split_ifs <;> rfl

theorem light_control_light1 (cfg : Config) (i : Nat) (M : Machine) :
    (light_control cfg i M).1.light1_on
      = if i = BTN_X then c_not M.light1_on else M.light1_on := by
  unfold light_control
  split_ifs <;> rfl

theorem light_control_light2 (cfg : Config) (i : Nat) (M : Machine) :
    (light_control cfg i M).1.light2_on
      = if i = BTN_Y then c_not M.light2_on else M.light2_on := by
  have hxy : BTN_X ≠ BTN_Y := by decide
  unfold light_control
  by_cases h1 : i = BTN_X
  · subst h1; simp [hxy]
  · by_cases h2 : i = BTN_Y
    · subst h2; simp [hxy.symm]
    · simp [h1, h2]

theorem light_control_effects (cfg : Config) (i : Nat) (M : Machine) :
    (light_control cfg i M).2
      = if i = BTN_X then
          [Effect.mqtt_publish cfg.topic_light1 (on_off (c_not M.light1_on))]
        else if i = BTN_Y then
          [Effect.mqtt_publish cfg.topic_light2 (on_off (c_not M.light2_on))]
        else [] := by
  unfold light_control
  split_ifs <;> rfl

theorem loop_upto (cfg : Config) (M : Machine) (f : Frame) (n : Nat) :
    (∀ j, ((List.range n).foldl (button_iter cfg f) (M, [])).1.button j
        = if j < n then (debounce_step (M.button j) (pressed f.bits j) f.t).1
          else M.button j) ∧
    ((List.range n).foldl (button_iter cfg f) (M, [])).1.light1_on
        = (if BTN_X < n ∧ (debounce_step (M.button BTN_X) (pressed f.bits BTN_X) f.t).2 = true
            then c_not M.light1_on else M.light1_on) ∧
    ((List.range n).foldl (button_iter cfg f) (M, [])).1.light2_on
        = (if BTN_Y < n ∧ (debounce_step (M.button BTN_Y) (pressed f.bits BTN_Y) f.t).2 = true
            then c_not M.light2_on else M.light2_on) ∧
    ((List.range n).foldl (button_iter cfg f) (M, [])).2 = frame_effects cfg M f n := by
  induction n with
  | zero => simp [frame_effects]
  | succ n ih =>
    obtain ⟨hb, h1, h2, he⟩ := ih
    rw [List.range_succ, List.foldl_append]
    simp only [List.foldl_cons, List.foldl_nil]
    generalize (List.range n).foldl (button_iter cfg f) (M, []) = R at hb h1 h2 he
    have hbn : R.1.button n = M.button n := by rw [hb n]; simp
    have hx : n = BTN_X → R.1.light1_on = M.light1_on := by
      intro h; rw [h1]; simp [h]
    have hy : n = BTN_Y → R.1.light2_on = M.light2_on := by
      intro h; rw [h2]; simp [h]
    have heff : (fire_actions cfg adb_keymap n R.1).2 = (fire_actions cfg adb_keymap n M).2 := by
      simp only [fire_actions, light_control_effects]
      by_cases c1 : n = BTN_X
      · simp [c1, hx c1]
      · by_cases c2 : n = BTN_Y
        · have hyx : BTN_Y ≠ BTN_X := by decide
          simp [c2, hyx, (hy c2)]
        · simp [c1, c2]
    unfold button_iter
    rw [hbn]
    cases hf : (debounce_step (M.button n) (pressed f.bits n) f.t).2 with
    | true =>
      simp only [if_true]
      refine ⟨?_, ?_, ?_, ?_⟩
      · intro j
        simp only [fire_actions, light_control_button]
        by_cases hjn : j = n
        · subst hjn; simp
        · rw [Function.update_noteq hjn, hb j]
          by_cases hlt : j < n
          · simp [hlt, Nat.lt_succ_of_lt hlt]
          · have : ¬ j < n + 1 := by omega
            simp [hlt, this]
      · simp only [fire_actions, light_control_light1]
        by_cases c1 : n = BTN_X
        · subst c1; simp [hx rfl, hf]
        · have : (BTN_X < n + 1) = (BTN_X < n) := by
            apply propext; constructor <;> intro h <;> omega
          simp [c1, h1, this]
      · simp only [fire_actions, light_control_light2]
        by_cases c2 : n = BTN_Y
        · subst c2; simp [hy rfl, hf]
        · have : (BTN_Y < n + 1) = (BTN_Y < n) := by
            apply propext; constructor <;> intro h <;> omega
          simp [c2, h2, this]
      · rw [heff, he]
        simp [frame_effects, iter_effects, hf]
    | false =>
      simp only [Bool.false_eq_true, if_false]
      refine ⟨?_, ?_, ?_, ?_⟩
      · intro j
        by_cases hjn : j = n
        · subst hjn; simp
        · rw [Function.update_noteq hjn, hb j]
          by_cases hlt : j < n
          · simp [hlt, Nat.lt_succ_of_lt hlt]
          · have : ¬ j < n + 1 := by omega
            simp [hlt, this]
      · by_cases c1 : n = BTN_X
        · subst c1; simp [hx rfl, hf]
        · have : (BTN_X < n + 1) = (BTN_X < n) := by
            apply propext; constructor <;> intro h <;> omega
          simp [h1, this]
      · by_cases c2 : n = BTN_Y
        · subst c2; simp [hy rfl, hf]
        · have : (BTN_Y < n + 1) = (BTN_Y < n) := by
            apply propext; constructor <;> intro h <;> omega
          simp [h2, this]
      · rw [he]
        simp [frame_effects, iter_effects, hf]

theorem process_frame_button (cfg : Config) (M : Machine) (f : Frame) (i : Nat)
    (hi : i < NUM_BUTTONS) :
    (process_frame cfg M f).1.button i
      = (debounce_step (M.button i) (pressed f.bits i) f.t).1 := by
  unfold process_frame
  rw [(loop_upto cfg M f NUM_BUTTONS).1 i]
  simp [hi]

theorem process_frame_light1 (cfg : Config) (M : Machine) (f : Frame) :
    (process_frame cfg M f).1.light1_on
      = if (debounce_step (M.button BTN_X) (pressed f.bits BTN_X) f.t).2 = true
          then c_not M.light1_on else M.light1_on := by
  unfold process_frame
  rw [(loop_upto cfg M f NUM_BUTTONS).2.1]
  have : BTN_X < NUM_BUTTONS := by decide
  simp [this]

theorem process_frame_light2 (cfg : Config) (M : Machine) (f : Frame) :
    (process_frame cfg M f).1.light2_on
      = if (debounce_step (M.button BTN_Y) (pressed f.bits BTN_Y) f.t).2 = true
          then c_not M.light2_on else M.light2_on := by
  unfold process_frame
  rw [(loop_upto cfg M f NUM_BUTTONS).2.2.1]
  have : BTN_Y < NUM_BUTTONS := by decide
  simp [this]

theorem process_frame_effects (cfg : Config) (M : Machine) (f : Frame) :
    (process_frame cfg M f).2 = frame_effects cfg M f NUM_BUTTONS := by
  unfold process_frame
  exact (loop_upto cfg M f NUM_BUTTONS).2.2.2

theorem printf_mem_fire_actions (cfg : Config) (km : List (Option String)) (i j : Nat)
    (M : Machine) :
    Effect.printf_pressed i ∈ (fire_actions cfg km j M).2 ↔ i = j := by
  have h1 : Effect.printf_pressed i ∉ (light_control cfg j M).2 := by
    rw [light_control_effects]; split_ifs <;> simp
  have h2 : Effect.printf_pressed i ∉ adb_control km j := by
    unfold adb_control; split <;> simp
  simp [fire_actions, h1, h2]

theorem printf_mem_frame_effects (cfg : Config) (M : Machine) (f : Frame) (i n : Nat) :
    Effect.printf_pressed i ∈ frame_effects cfg M f n ↔
      i < n ∧ (debounce_step (M.button i) (pressed f.bits i) f.t).2 = true := by
  induction n with
  | zero => simp [frame_effects]
  | succ n ih =>
    simp only [frame_effects, List.mem_append, ih, iter_effects]
    by_cases hf : (debounce_step (M.button n) (pressed f.bits n) f.t).2 = true
    · simp only [hf, if_true, printf_mem_fire_actions]
      constructor
      · rintro (⟨h1, h2⟩ | h)
        · exact ⟨by omega, h2⟩
        · subst h; exact ⟨by omega, hf⟩
      · rintro ⟨h1, h2⟩
        by_cases h : i = n
        · exact Or.inr h
        · exact Or.inl ⟨by omega, h2⟩
    · have hff : (debounce_step (M.button n) (pressed f.bits n) f.t).2 = false := by
        simpa using hf
      simp only [hff, Bool.false_eq_true, if_false, List.not_mem_nil, or_false]
      constructor
      · rintro ⟨h1, h2⟩; exact ⟨by omega, h2⟩
      · rintro ⟨h1, h2⟩
        have : i ≠ n := by rintro rfl; exact hf h2
        exact ⟨by omega, h2⟩

theorem button_view_process_frame (cfg : Config) (M : Machine) (f : Frame) (i : Nat)
    (hi : i < NUM_BUTTONS) :
    button_view i (process_frame cfg M f)
      = debounce_step (M.button i) (pressed f.bits i) f.t := by
  unfold button_view
  rw [process_frame_button cfg M f i hi, process_frame_effects]
  apply Prod.ext
  · rfl
  · simp only [printf_mem_frame_effects, hi, true_and]
    cases (debounce_step (M.button i) (pressed f.bits i) f.t).2 <;> simp

theorem machine_run_button (cfg : Config) (i : Nat) (hi : i < NUM_BUTTONS)
    (fs : List Frame) (M : Machine) :
    (machine_run cfg M fs).map (button_view i)
      = button_trajectory (M.button i) (button_samples i fs) := by
  induction fs generalizing M with
  | nil => rfl
  | cons f fs ih =>
    simp only [machine_run, List.map_cons, button_samples, button_trajectory]
    rw [button_view_process_frame cfg M f i hi]
    have := ih (process_frame cfg M f).1
    rw [process_frame_button cfg M f i hi] at this
    rw [this]
    rfl

/-! ## Button independence -/

/-- C8: button independence.  For a button `i` and two runs of the whole machine
whose start states agree on button `i` (the lights and all other buttons may
differ) and whose frames have the same timestamps and the same pressed-sample for
button `i` (all other samples may differ arbitrarily): after every frame the state
of button `i` (phase, counter, deadline) is the same in both runs and `i` fires on
the same frames.  Processing one frame changes button `i` exactly as
`debounce_step` of its previous state, its sample and the frame timestamp. -/
theorem button_independence (cfg : Config) (i : Nat) (hi : i < NUM_BUTTONS)
    (M1 M2 : Machine) (hM : M1.button i = M2.button i) (fs1 fs2 : List Frame)
    (hagree : List.Forall₂
      (fun f g => f.t = g.t ∧ pressed f.bits i = pressed g.bits i) fs1 fs2) :
    (machine_run cfg M1 fs1).map (button_view i)
        = (machine_run cfg M2 fs2).map (button_view i) ∧
      (∀ (M : Machine) (f : Frame),
        button_view i (process_frame cfg M f)
          = debounce_step (M.button i) (pressed f.bits i) f.t) := by
  refine ⟨?_, fun M f => button_view_process_frame cfg M f i hi⟩
  rw [machine_run_button cfg i hi fs1 M1, machine_run_button cfg i hi fs2 M2, hM]
  have : button_samples i fs1 = button_samples i fs2 := by
    induction hagree with
    | nil => rfl
    | cons h _ ih =>
      simp only [button_samples, List.map_cons] at ih ⊢
      rw [ih, h.1, h.2]
  rw [this]

/-- Instance of C8 for button X: a frame in which only X is pressed and a frame
in which every button is pressed, same timestamp, started from machines that
differ in the lights, show the same state and fire flag for X. -/
theorem button_independence_witness :
    (machine_run (Config.mk "l1" "l2") init_machine
        [Frame.mk (fun j => if j = 9 then 0 else 1) 16]).map (button_view BTN_X)
      = (machine_run (Config.mk "l1" "l2") (Machine.mk (fun _ => init_button) 1 1)
        [Frame.mk (fun _ => 0) 16]).map (button_view BTN_X) :=
  (button_independence (Config.mk "l1" "l2") BTN_X (by decide) init_machine
    (Machine.mk (fun _ => init_button) 1 1) rfl
    [Frame.mk (fun j => if j = 9 then 0 else 1) 16] [Frame.mk (fun _ => 0) 16]
    (List.Forall₂.cons ⟨rfl, rfl⟩ List.Forall₂.nil)).1

/-! ## Counter invariant -/

theorem step_counter_inv (s : ButtonState) (p : Bool) (t : Int) (h : counter_inv s) :
    counter_inv (debounce_step s p t).1 := by
  obtain ⟨st, c, d⟩ := s
  cases st <;> cases p <;>
    simp only [counter_inv, debounce_step, PRESS_FRAMES, RELEASE_FRAMES] at h ⊢ <;>
    split_ifs <;> simp only [] <;> omega

theorem run_counter_inv (fs : List (Bool × Int)) (s : ButtonState) (h : counter_inv s) :
    counter_inv (run s fs) := by
  induction fs generalizing s with
  | nil => exact h
  | cons f fs ih => exact ih _ (step_counter_inv s f.1 f.2 h)

theorem machine_after_counter_inv (cfg : Config) (fs : List Frame) (M : Machine)
    (h : ∀ i, counter_inv (M.button i)) :
    ∀ i, counter_inv ((machine_after cfg M fs).button i) := by
  induction fs generalizing M with
  | nil => exact h
  | cons f fs ih =>
    apply ih
    intro j
    unfold process_frame
    rw [(loop_upto cfg M f NUM_BUTTONS).1 j]
    split_ifs
    · exact step_counter_inv _ _ _ (h j)
    · exact h j

theorem counter_inv_bounds (s : ButtonState) (h : counter_inv s) :
    0 ≤ s.counter ∧ s.counter + 1 ≤ PRESS_FRAMES ∧ s.counter + 1 ≤ RELEASE_FRAMES ∧
      s.counter + 1 ≤ INT_MAX := by
  obtain ⟨st, c, d⟩ := s
  cases st <;> simp only [counter_inv, PRESS_FRAMES, RELEASE_FRAMES, INT_MAX] at h ⊢ <;> omega

/-- C10: counter invariant.  In every machine state reachable from the initial
state by any sequence of frames (any bits, any timestamps), every button satisfies:
in Idle `0 ≤ counter < PRESS_FRAMES`, in Cooldown `counter = 0`, in WaitRelease
`0 ≤ counter < RELEASE_FRAMES`.  Hence the value `counter + 1` computed by
`counter[i]++` is at most `PRESS_FRAMES = RELEASE_FRAMES`, far below `INT_MAX`, and
the phase is one of the three enumerated values.  The same holds for a single
button's machine run from its initial state. -/
theorem reachable_counter_invariant (cfg : Config) (fs : List Frame) (i : Nat) :
    counter_inv ((machine_after cfg init_machine fs).button i) ∧
      0 ≤ ((machine_after cfg init_machine fs).button i).counter ∧
      ((machine_after cfg init_machine fs).button i).counter + 1 ≤ INT_MAX ∧
      (((machine_after cfg init_machine fs).button i).st = state.IDLE ∨
        ((machine_after cfg init_machine fs).button i).st = state.COOLDOWN ∨
        ((machine_after cfg init_machine fs).button i).st = state.WAIT_RELEASE) ∧
      (∀ samples : List (Bool × Int),
        counter_inv (run init_button samples) ∧
          (run init_button samples).counter + 1 ≤ INT_MAX) := by
  have h0 : counter_inv init_button := by
    simp [counter_inv, init_button, PRESS_FRAMES]
  have h := machine_after_counter_inv cfg fs init_machine (fun _ => h0) i
  have hb := counter_inv_bounds _ h
  refine ⟨h, hb.1, hb.2.2.2, ?_, ?_⟩
  · cases ((machine_after cfg init_machine fs).button i).st <;> simp
  · intro samples
    have h2 := run_counter_inv samples init_button h0
    exact ⟨h2, (counter_inv_bounds _ h2).2.2.2⟩

/-! ## Frame decode -/

theorem gpio_read_bit (lev pin : Nat) : gpio_read lev pin = 0 ∨ gpio_read lev pin = 1 := by
  unfold gpio_read
  rw [Nat.and_one_is_mod]
  rcases Nat.mod_two_eq_zero_or_one ((lev % 2 ^ 32) >>> pin) with h | h
  · left; rw [h]; rfl
  · right; rw [h]; rfl

/-- C7: frame decode.  For a frame of `NUM_BUTTONS` raw data-line bits, each 0 or
1 (which is what `gpio_read` returns), the pressed-boolean of button `i` is the
logical negation of raw bit `i` (pressed iff the bit is 0), the whole pressed
sequence is the negated bit sequence in the same order, and it is this boolean
that the per-button loop feeds to button `i`'s machine. -/
theorem frame_decode (cfg : Config) (M : Machine) (bits : Nat → Int) (t : Int)
    (hbits : ∀ j, j < NUM_BUTTONS → bits j = 0 ∨ bits j = 1)
    (i : Nat) (hi : i < NUM_BUTTONS) :
    pressed bits i = (!decide (bits i = 1)) ∧
      (pressed bits i = true ↔ bits i = 0) ∧
      (List.range NUM_BUTTONS).map (pressed bits)
        = ((List.range NUM_BUTTONS).map bits).map (fun b => !decide (b = 1)) ∧
      button_view i (process_frame cfg M (Frame.mk bits t))
        = debounce_step (M.button i) (!decide (bits i = 1)) t ∧
      (∀ (lev : Nat → Nat) (j : Nat), read_bits lev j = 0 ∨ read_bits lev j = 1) := by
  have neg : ∀ j, j < NUM_BUTTONS → pressed bits j = (!decide (bits j = 1)) := by
    intro j hj
    unfold pressed
    rcases hbits j hj with h | h <;> simp [h]
  refine ⟨neg i hi, by simp [pressed], ?_, ?_, fun lev j => gpio_read_bit (lev j) DATA_PIN⟩
  · rw [List.map_map]
    apply List.map_congr_left
    intro j hj
    exact neg j (List.mem_range.mp hj)
  · rw [button_view_process_frame cfg M (Frame.mk bits t) i hi, neg i hi]

/-- Instance of C7: a frame whose raw bits are all 1 except bit 9 (button X):
X is the only pressed button, and the data line read from a level register with
pin 22 low gives a raw 0. -/
theorem frame_decode_witness :
    (List.range NUM_BUTTONS).map (pressed (fun j => if j = 9 then 0 else 1))
        = [false, false, false, false, false, false, false, false, false, true,
           false, false] ∧
      pressed (fun j => if j = 9 then 0 else 1) 9
        = (!decide ((fun j : Nat => if j = 9 then (0 : Int) else 1) 9 = 1)) ∧
      gpio_read 0 DATA_PIN = 0 ∧ gpio_read (2 ^ 22) DATA_PIN = 1 :=
  ⟨by decide,
   (frame_decode (Config.mk "l1" "l2") init_machine (fun j => if j = 9 then 0 else 1) 16
     (fun j _ => by by_cases h : j = 9 <;> simp [h]) 9 (by decide)).1,
   by decide, by decide⟩

/-! ## Dispatch -/

theorem btn_y_ne_x : BTN_Y ≠ BTN_X := by decide

theorem btn_x_ne_y : BTN_X ≠ BTN_Y := by decide

theorem request_count (cfg : Config) (km : List (Option String)) (i : Nat) (M : Machine) :
    ((fire_actions cfg km i M).2.filter is_request).length
      = (if i = BTN_X ∨ i = BTN_Y then 1 else 0)
        + (if (km.getD i none).isSome = true then 1 else 0) := by
  simp only [fire_actions, light_control_effects, adb_control]
  by_cases c1 : i = BTN_X <;> by_cases c2 : i = BTN_Y <;>
    cases hk : km.getD i none <;>
    simp [c1, c2, is_request, btn_y_ne_x, btn_x_ne_y]

theorem key_request_mem (cfg : Config) (km : List (Option String)) (i : Nat) (M : Machine)
    (k : String) :
    Effect.adb_keyevent k ∈ (fire_actions cfg km i M).2 ↔ km.getD i none = some k := by
  simp only [fire_actions, light_control_effects, adb_control]
  by_cases c1 : i = BTN_X <;> by_cases c2 : i = BTN_Y <;>
    cases hk : km.getD i none <;>
    simp [c1, c2, eq_comm, btn_y_ne_x, btn_x_ne_y]

theorem light_request_mem (cfg : Config) (km : List (Option String)) (i : Nat) (M : Machine) :
    (∃ e, e ∈ (fire_actions cfg km i M).2 ∧ is_light_request e = true)
      ↔ i = BTN_X ∨ i = BTN_Y := by
  simp only [fire_actions, light_control_effects, adb_control]
  by_cases c1 : i = BTN_X <;> by_cases c2 : i = BTN_Y <;>
    cases hk : km.getD i none <;>
    simp [c1, c2, is_light_request, btn_y_ne_x, btn_x_ne_y]

/-- C6: dispatch equals the documented table.  For the buttons in shift order
(B, Y, Select, Start, Up, Down, Left, Right, A, X, L, R) the fire branch emits,
after the `printf`, exactly: a publish for light 1 on X and for light 2 on Y, and
the keycode of the table for every button that has one (none for X and Y).  For
any keycode table: a light-toggle request is produced iff the button is X or Y, a
keycode request iff the table has an entry, carrying that entry; a button with no
entry produces no keycode request; and the number of actuator requests is the
number of mappings present (two when both are present). -/
theorem dispatch_table (cfg : Config) (M : Machine) :
    [BTN_B, BTN_Y, BTN_SELECT, BTN_START, BTN_UP, BTN_DOWN, BTN_LEFT, BTN_RIGHT,
        BTN_A, BTN_X, BTN_L, BTN_R].map (fun i => buttons.getD i "")
      = ["B", "Y", "Select", "Start", "Up", "Down", "Left", "Right", "A", "X", "L", "R"] ∧
    (fire_actions cfg adb_keymap BTN_B M).2
      = [Effect.printf_pressed BTN_B, Effect.adb_keyevent "KEYCODE_BACK"] ∧
    (fire_actions cfg adb_keymap BTN_Y M).2
      = [Effect.printf_pressed BTN_Y,
         Effect.mqtt_publish cfg.topic_light2 (on_off (c_not M.light2_on))] ∧
    (fire_actions cfg adb_keymap BTN_SELECT M).2
      = [Effect.printf_pressed BTN_SELECT, Effect.adb_keyevent "KEYCODE_MENU"] ∧
    (fire_actions cfg adb_keymap BTN_START M).2
      = [Effect.printf_pressed BTN_START, Effect.adb_keyevent "KEYCODE_TV_POWER"] ∧
    (fire_actions cfg adb_keymap BTN_UP M).2
      = [Effect.printf_pressed BTN_UP, Effect.adb_keyevent "KEYCODE_DPAD_UP"] ∧
    (fire_actions cfg adb_keymap BTN_DOWN M).2
      = [Effect.printf_pressed BTN_DOWN, Effect.adb_keyevent "KEYCODE_DPAD_DOWN"] ∧
    (fire_actions cfg adb_keymap BTN_LEFT M).2
      = [Effect.printf_pressed BTN_LEFT, Effect.adb_keyevent "KEYCODE_DPAD_LEFT"] ∧
    (fire_actions cfg adb_keymap BTN_RIGHT M).2
      = [Effect.printf_pressed BTN_RIGHT, Effect.adb_keyevent "KEYCODE_DPAD_RIGHT"] ∧
    (fire_actions cfg adb_keymap BTN_A M).2
      = [Effect.printf_pressed BTN_A, Effect.adb_keyevent "KEYCODE_ENTER"] ∧
    (fire_actions cfg adb_keymap BTN_X M).2
      = [Effect.printf_pressed BTN_X,
         Effect.mqtt_publish cfg.topic_light1 (on_off (c_not M.light1_on))] ∧
    (fire_actions cfg adb_keymap BTN_L M).2
      = [Effect.printf_pressed BTN_L, Effect.adb_keyevent "KEYCODE_PAGE_UP"] ∧
    (fire_actions cfg adb_keymap BTN_R M).2
      = [Effect.printf_pressed BTN_R, Effect.adb_keyevent "KEYCODE_PAGE_DOWN"] ∧
    (∀ (km : List (Option String)) (i : Nat),
      ((∃ e, e ∈ (fire_actions cfg km i M).2 ∧ is_light_request e = true)
          ↔ i = BTN_X ∨ i = BTN_Y) ∧
      (∀ k, Effect.adb_keyevent k ∈ (fire_actions cfg km i M).2 ↔ km.getD i none = some k) ∧
      (km.getD i none = none → (fire_actions cfg km i M).2.filter is_key_request = []) ∧
      ((fire_actions cfg km i M).2.filter is_request).length
        = (if i = BTN_X ∨ i = BTN_Y then 1 else 0)
          + (if (km.getD i none).isSome = true then 1 else 0) ∧
      ((i = BTN_X ∨ i = BTN_Y) → (km.getD i none).isSome = true →
        ((fire_actions cfg km i M).2.filter is_request).length = 2)) := by
  refine ⟨by decide, rfl, rfl, rfl, rfl, rfl, rfl, rfl, rfl, rfl, rfl, rfl, rfl, ?_⟩
  intro km i
  refine ⟨light_request_mem cfg km i M, key_request_mem cfg km i M, ?_,
    request_count cfg km i M, ?_⟩
  · intro hnone
    simp only [fire_actions, light_control_effects, adb_control, hnone]
    by_cases c1 : i = BTN_X <;> by_cases c2 : i = BTN_Y <;>
      simp [c1, c2, is_key_request, btn_y_ne_x, btn_x_ne_y]
  · intro h1 h2
    rw [request_count, if_pos h1, if_pos h2]

/-! ## Light toggles -/

theorem count_printf_fire_actions (cfg : Config) (km : List (Option String)) (i j : Nat)
    (M : Machine) :
    (fire_actions cfg km j M).2.count (Effect.printf_pressed i) = if i = j then 1 else 0 := by
  have h1 : (light_control cfg j M).2.count (Effect.printf_pressed i) = 0 := by
    rw [light_control_effects]; split_ifs <;> simp
  have h2 : (adb_control km j).count (Effect.printf_pressed i) = 0 := by
    unfold adb_control; split <;> simp
  simp only [fire_actions, List.count_cons, List.count_append, h1, h2]
  by_cases h : i = j
  · subst h; simp
  · have : j ≠ i := fun e => h e.symm
    simp [h, this]

theorem count_printf_frame_effects (cfg : Config) (M : Machine) (f : Frame) (i n : Nat) :
    (frame_effects cfg M f n).count (Effect.printf_pressed i)
      = if i < n ∧ (debounce_step (M.button i) (pressed f.bits i) f.t).2 = true
          then 1 else 0 := by
  induction n with
  | zero => simp [frame_effects]
  | succ n ih =>
    simp only [frame_effects, List.count_append, ih, iter_effects]
    by_cases hin : i = n
    · subst hin
      cases hf : (debounce_step (M.button i) (pressed f.bits i) f.t).2 <;>
        simp [count_printf_fire_actions]
    · have h1 : i < n + 1 ↔ i < n := by
        constructor <;> intro h <;> omega
      have h2 : ((if (debounce_step (M.button n) (pressed f.bits n) f.t).2 = true
          then (fire_actions cfg adb_keymap n M).2 else []).count (Effect.printf_pressed i)) = 0 := by
        split_ifs
        · rw [count_printf_fire_actions]; simp [hin]
        · simp
      rw [h2]; simp only [h1, Nat.add_zero]

theorem c_not_bit (l : Int) (h : l = 0 ∨ l = 1) : c_not l = (l + 1) % 2 := by
  rcases h with h | h <;> subst h <;> decide

theorem machine_after_nil (cfg : Config) (M : Machine) : machine_after cfg M [] = M := rfl

theorem machine_after_cons (cfg : Config) (M : Machine) (f : Frame) (fs : List Frame) :
    machine_after cfg M (f :: fs) = machine_after cfg (process_frame cfg M f).1 fs := rfl

theorem machine_effects_nil (cfg : Config) (M : Machine) : machine_effects cfg M [] = [] := rfl

theorem machine_effects_cons (cfg : Config) (M : Machine) (f : Frame) (fs : List Frame) :
    machine_effects cfg M (f :: fs)
      = (process_frame cfg M f).2 ++ machine_effects cfg (process_frame cfg M f).1 fs := rfl

theorem lights_parity (cfg : Config) (fs : List Frame) (M : Machine)
    (h1 : M.light1_on = 0 ∨ M.light1_on = 1) (h2 : M.light2_on = 0 ∨ M.light2_on = 1) :
    (machine_after cfg M fs).light1_on
        = (M.light1_on
            + ((machine_effects cfg M fs).count (Effect.printf_pressed BTN_X) : Nat)) % 2 ∧
      (machine_after cfg M fs).light2_on
        = (M.light2_on
            + ((machine_effects cfg M fs).count (Effect.printf_pressed BTN_Y) : Nat)) % 2 := by
  induction fs generalizing M with
  | nil =>
    rw [machine_after_nil, machine_effects_nil]
    simp only [List.count_nil]
    push_cast
    constructor <;> omega
  | cons f fs ih =>
    have hx : BTN_X < NUM_BUTTONS := by decide
    have hy : BTN_Y < NUM_BUTTONS := by decide
    have e1 := process_frame_light1 cfg M f
    have e2 := process_frame_light2 cfg M f
    have c1 := count_printf_frame_effects cfg M f BTN_X NUM_BUTTONS
    have c2 := count_printf_frame_effects cfg M f BTN_Y NUM_BUTTONS
    rw [← process_frame_effects] at c1 c2
    simp only [hx, hy, true_and] at c1 c2
    have g1 : (process_frame cfg M f).1.light1_on = 0 ∨ (process_frame cfg M f).1.light1_on = 1 := by
      rw [e1]; split_ifs
      · rw [c_not_bit _ h1]; omega
      · exact h1
    have g2 : (process_frame cfg M f).1.light2_on = 0 ∨ (process_frame cfg M f).1.light2_on = 1 := by
      rw [e2]; split_ifs
      · rw [c_not_bit _ h2]; omega
      · exact h2
    obtain ⟨i1, i2⟩ := ih (process_frame cfg M f).1 g1 g2
    rw [machine_after_cons, machine_effects_cons]
    simp only [List.count_append]
    rw [i1, i2, e1, e2, c1, c2]
    constructor
    · split_ifs
      · rw [c_not_bit _ h1]; push_cast; omega
      · push_cast; omega
    · split_ifs
      · rw [c_not_bit _ h2]; push_cast; omega
      · push_cast; omega

theorem c_not_ne_zero (l : Int) : c_not l ≠ 0 ↔ l = 0 := by
  unfold c_not
  split_ifs with h <;> simp [h]

/-- C5: light toggle alternation.  Both light booleans start off.  A fire of X
flips light 1 and publishes to light 1's topic "ON" if the new state is on and
"OFF" otherwise, leaving light 2 alone; likewise Y and light 2.  A fire of a
button other than X leaves light 1 unchanged and its only possible publish is
Y's publish for light 2 (and symmetrically for light 2).  Two consecutive X fires
from the initial state give off, on, off.  Over any run of the whole machine from
its initial state, light 1 is on iff the number of X fires so far is odd, and
light 2 is on iff the number of Y fires is odd. -/
theorem light_toggle_alternation (cfg : Config) :
    init_machine.light1_on = 0 ∧ init_machine.light2_on = 0 ∧
    (∀ M : Machine,
      ((fire_actions cfg adb_keymap BTN_X M).1.light1_on ≠ 0 ↔ M.light1_on = 0) ∧
      (fire_actions cfg adb_keymap BTN_X M).1.light2_on = M.light2_on ∧
      (fire_actions cfg adb_keymap BTN_X M).2
        = [Effect.printf_pressed BTN_X,
           Effect.mqtt_publish cfg.topic_light1
            (if (fire_actions cfg adb_keymap BTN_X M).1.light1_on ≠ 0 then "ON" else "OFF")]) ∧
    (∀ M : Machine,
      ((fire_actions cfg adb_keymap BTN_Y M).1.light2_on ≠ 0 ↔ M.light2_on = 0) ∧
      (fire_actions cfg adb_keymap BTN_Y M).1.light1_on = M.light1_on ∧
      (fire_actions cfg adb_keymap BTN_Y M).2
        = [Effect.printf_pressed BTN_Y,
           Effect.mqtt_publish cfg.topic_light2
            (if (fire_actions cfg adb_keymap BTN_Y M).1.light2_on ≠ 0 then "ON" else "OFF")]) ∧
    (∀ (M : Machine) (i : Nat), i ≠ BTN_X →
      (fire_actions cfg adb_keymap i M).1.light1_on = M.light1_on ∧
      ∀ e, e ∈ (fire_actions cfg adb_keymap i M).2 → is_light_request e = true →
        i = BTN_Y ∧
        e = Effect.mqtt_publish cfg.topic_light2
            (if (fire_actions cfg adb_keymap i M).1.light2_on ≠ 0 then "ON" else "OFF")) ∧
    (∀ (M : Machine) (i : Nat), i ≠ BTN_Y →
      (fire_actions cfg adb_keymap i M).1.light2_on = M.light2_on ∧
      ∀ e, e ∈ (fire_actions cfg adb_keymap i M).2 → is_light_request e = true →
        i = BTN_X ∧
        e = Effect.mqtt_publish cfg.topic_light1
            (if (fire_actions cfg adb_keymap i M).1.light1_on ≠ 0 then "ON" else "OFF")) ∧
    ((fire_actions cfg adb_keymap BTN_X init_machine).1.light1_on = 1 ∧
      (fire_actions cfg adb_keymap BTN_X
        (fire_actions cfg adb_keymap BTN_X init_machine).1).1.light1_on = 0) ∧
    ((fire_actions cfg adb_keymap BTN_Y init_machine).1.light2_on = 1 ∧
      (fire_actions cfg adb_keymap BTN_Y
        (fire_actions cfg adb_keymap BTN_Y init_machine).1).1.light2_on = 0) ∧
    (∀ fs : List Frame,
      ((machine_after cfg init_machine fs).light1_on ≠ 0 ↔
        Odd ((machine_effects cfg init_machine fs).count (Effect.printf_pressed BTN_X))) ∧
      ((machine_after cfg init_machine fs).light2_on ≠ 0 ↔
        Odd ((machine_effects cfg init_machine fs).count (Effect.printf_pressed BTN_Y)))) := by
  refine ⟨rfl, rfl, ?_, ?_, ?_, ?_, ⟨rfl, rfl⟩, ⟨rfl, rfl⟩, ?_⟩
  · intro M
    refine ⟨?_, ?_, ?_⟩
    · simp only [fire_actions, light_control_light1, if_true]
      exact c_not_ne_zero _
    · simp [fire_actions, light_control_light2, btn_x_ne_y]
    · simp [fire_actions, light_control_effects, light_control_light1, adb_control,
        adb_keymap, BTN_X, on_off]
  · intro M
    refine ⟨?_, ?_, ?_⟩
    · simp only [fire_actions, light_control_light2, if_true]
      exact c_not_ne_zero _
    · simp [fire_actions, light_control_light1, btn_y_ne_x]
    · simp [fire_actions, light_control_effects, light_control_light2, adb_control,
        adb_keymap, BTN_X, BTN_Y, on_off]
  · intro M i hi
    refine ⟨by simp [fire_actions, light_control_light1, hi], ?_⟩
    intro e he hl
    simp only [fire_actions, light_control_effects, light_control_light2, hi, if_false,
      List.mem_cons, List.mem_append] at he ⊢
    by_cases c2 : i = BTN_Y
    · simp only [c2, if_true, List.mem_singleton] at he ⊢
      rcases he with he | he | he
      · subst he; simp [is_light_request] at hl
      · exact ⟨trivial, by rw [he]; rfl⟩
      · unfold adb_control at he
        split at he
        · simp only [List.mem_singleton] at he
          subst he; simp [is_light_request] at hl
        · simp at he
    · simp only [c2, if_false, List.not_mem_nil, false_or] at he
      rcases he with he | he
      · subst he; simp [is_light_request] at hl
      · unfold adb_control at he
        split at he
        · simp only [List.mem_singleton] at he
          subst he; simp [is_light_request] at hl
        · simp at he
  · intro M i hi
    refine ⟨by simp [fire_actions, light_control_light2, hi], ?_⟩
    intro e he hl
    simp only [fire_actions, light_control_effects, light_control_light1,
      List.mem_cons, List.mem_append] at he ⊢
    by_cases c1 : i = BTN_X
    · simp only [c1, if_true, List.mem_singleton] at he ⊢
      rcases he with he | he | he
      · subst he; simp [is_light_request] at hl
      · exact ⟨trivial, by rw [he]; rfl⟩
      · unfold adb_control at he
        split at he
        · simp only [List.mem_singleton] at he
          subst he; simp [is_light_request] at hl
        · simp at he
    · simp only [c1, hi, if_false, List.not_mem_nil, false_or] at he
      rcases he with he | he
      · subst he; simp [is_light_request] at hl
      · unfold adb_control at he
        split at he
        · simp only [List.mem_singleton] at he
          subst he; simp [is_light_request] at hl
        · simp at he
  · intro fs
    obtain ⟨p1, p2⟩ := lights_parity cfg fs init_machine (Or.inl rfl) (Or.inl rfl)
    have z1 : init_machine.light1_on = 0 := rfl
    have z2 : init_machine.light2_on = 0 := rfl
    rw [p1, p2, z1, z2]
    constructor
    · rw [Nat.odd_iff]; omega
    · rw [Nat.odd_iff]; omega

/-! ## Exactly one fire per clean press -/

theorem held_after_fire (d : Int) (ts : List Int) (s : ButtonState)
    (hs : s = ButtonState.mk state.COOLDOWN 0 d ∨ s = ButtonState.mk state.WAIT_RELEASE 0 d) :
    fires s (ts.map (fun t => (true, t))) = List.replicate ts.length false ∧
      (run s (ts.map (fun t => (true, t))) = ButtonState.mk state.COOLDOWN 0 d ∨
        run s (ts.map (fun t => (true, t))) = ButtonState.mk state.WAIT_RELEASE 0 d) := by
  induction ts generalizing s with
  | nil => exact ⟨rfl, hs⟩
  | cons t ts ih =>
    have hstep : (debounce_step s true t).2 = false ∧
        ((debounce_step s true t).1 = ButtonState.mk state.COOLDOWN 0 d ∨
          (debounce_step s true t).1 = ButtonState.mk state.WAIT_RELEASE 0 d) := by
      rcases hs with h | h <;> subst h
      · by_cases c : t ≥ d <;> simp [debounce_step, c]
      · simp [debounce_step]
    obtain ⟨i1, i2⟩ := ih _ hstep.2
    simp only [List.map_cons, fires, run, hstep.1, i1, List.length_cons, List.replicate_succ]
    exact ⟨trivial, i2⟩

theorem released_idle (d : Int) (ts : List Int) :
    run (ButtonState.mk state.IDLE 0 d) (ts.map (fun t => (false, t)))
      = ButtonState.mk state.IDLE 0 d := by
  induction ts with
  | nil => rfl
  | cons t ts ih =>
    simp only [List.map_cons, run]
    have : (debounce_step (ButtonState.mk state.IDLE 0 d) false t).1
        = ButtonState.mk state.IDLE 0 d := by simp [debounce_step]
    rw [this, ih]

theorem release_rearms (d u1 u2 u3 u4 u5 : Int) (us : List Int) (s : ButtonState)
    (hs : s = ButtonState.mk state.COOLDOWN 0 d ∨ s = ButtonState.mk state.WAIT_RELEASE 0 d)
    (hu : d ≤ u1) :
    run s ((u1 :: u2 :: u3 :: u4 :: u5 :: us).map (fun t => (false, t)))
      = ButtonState.mk state.IDLE 0 d := by
  have hge : u1 ≥ d := hu
  rcases hs with h | h <;> subst h
  · simp only [List.map_cons, run]
    simp only [debounce_step, hge, if_true, RELEASE_FRAMES]
    simp only [Bool.not_false, if_true]
    norm_num
    exact released_idle d us
  · simp only [List.map_cons, run]
    simp only [debounce_step, RELEASE_FRAMES]
    simp only [Bool.not_false, if_true]
    norm_num
    exact released_idle d us

theorem clean_block_run (d : Int) (b : PressBlock) (h : clean_block b) :
    fires (ButtonState.mk state.IDLE 0 d) (block_frames b) = block_fires b ∧
      ∃ d2, run (ButtonState.mk state.IDLE 0 d) (block_frames b)
        = ButtonState.mk state.IDLE 0 d2 := by
  obtain ⟨held, released⟩ := b
  obtain ⟨h1, h2, h3⟩ := h
  simp only [PRESS_FRAMES, RELEASE_FRAMES] at h1 h2 h3
  rcases held with _ | ⟨t1, _ | ⟨t2, _ | ⟨t3, _ | ⟨t4, hs⟩⟩⟩⟩
  · simp at h1
  · simp at h1
  · simp at h1
  · simp at h1
  rcases released with _ | ⟨u1, _ | ⟨u2, _ | ⟨u3, _ | ⟨u4, _ | ⟨u5, us⟩⟩⟩⟩⟩
  · simp at h2
  · simp at h2
  · simp at h2
  · simp at h2
  · simp at h2
  have h3b : t4 + COOLDOWN_MS ≤ u1 := by
    have e : ((4 : Int) - 1).toNat = 3 := by decide
    simpa [e] using h3
  have hA : fires (ButtonState.mk state.IDLE 0 d)
      [(true, t1), (true, t2), (true, t3), (true, t4)] = [false, false, false, true] := by
    simp [fires, debounce_step, PRESS_FRAMES]
  have hRA : run (ButtonState.mk state.IDLE 0 d)
      [(true, t1), (true, t2), (true, t3), (true, t4)]
        = ButtonState.mk state.COOLDOWN 0 (t4 + COOLDOWN_MS) := by
    simp [run, debounce_step, PRESS_FRAMES]
  obtain ⟨hB, hRB⟩ := held_after_fire (t4 + COOLDOWN_MS) hs
    (ButtonState.mk state.COOLDOWN 0 (t4 + COOLDOWN_MS)) (Or.inl rfl)
  have hRC := release_rearms (t4 + COOLDOWN_MS) u1 u2 u3 u4 u5 us _ hRB h3b
  have hC := fires_all_released
    (run (ButtonState.mk state.COOLDOWN 0 (t4 + COOLDOWN_MS)) (hs.map (fun t => (true, t))))
    (u1 :: u2 :: u3 :: u4 :: u5 :: us)
  have hsplit : block_frames (PressBlock.mk (t1 :: t2 :: t3 :: t4 :: hs)
        (u1 :: u2 :: u3 :: u4 :: u5 :: us))
      = [(true, t1), (true, t2), (true, t3), (true, t4)]
        ++ (hs.map (fun t => (true, t))
          ++ (u1 :: u2 :: u3 :: u4 :: u5 :: us).map (fun t => (false, t))) := by
    simp [block_frames]
  rw [hsplit]
  constructor
  · rw [fires_append, hA, hRA, fires_append, hB, hC]
    have e1 : ((4 : Int) - 1).toNat = 3 := by decide
    have e2 : (4 : Int).toNat = 4 := by decide
    simp only [block_fires, PRESS_FRAMES, e1, e2, List.length_cons]
    have e3 : hs.length + 1 + 1 + 1 + 1 - 4 + (us.length + 1 + 1 + 1 + 1 + 1)
        = hs.length + (us.length + 1 + 1 + 1 + 1 + 1) := by omega
    have e4 : List.replicate
          (hs.length + 1 + 1 + 1 + 1 - 4 + (us.length + 1 + 1 + 1 + 1 + 1)) false
        = List.replicate hs.length false
          ++ List.replicate (us.length + 1 + 1 + 1 + 1 + 1) false := by
      rw [e3, List.replicate_add]
    rw [e4]
    rfl
  · exact ⟨t4 + COOLDOWN_MS, by rw [run_append, hRA, run_append, hRC]⟩

theorem count_block_fires (b : PressBlock) : (block_fires b).count true = 1 := by
  simp [block_fires, List.count_append, List.count_replicate]

theorem clean_blocks_run (bs : List PressBlock) (h : ∀ b, b ∈ bs → clean_block b) (d : Int) :
    fires (ButtonState.mk state.IDLE 0 d) (blocks_frames bs) = blocks_fires bs ∧
      ∃ d2, run (ButtonState.mk state.IDLE 0 d) (blocks_frames bs)
        = ButtonState.mk state.IDLE 0 d2 := by
  induction bs generalizing d with
  | nil => exact ⟨rfl, d, rfl⟩
  | cons b bs ih =>
    obtain ⟨f1, d1, r1⟩ := clean_block_run d b (h b (List.mem_cons_self b bs))
    obtain ⟨f2, d2, r2⟩ := ih (fun c hc => h c (List.mem_cons_of_mem b hc)) d1
    simp only [blocks_frames, blocks_fires]
    rw [fires_append, run_append, f1, r1, f2, r2]
    exact ⟨rfl, d2, rfl⟩

theorem count_blocks_fires (bs : List PressBlock) : (blocks_fires bs).count true = bs.length := by
  induction bs with
  | nil => rfl
  | cons b bs ih =>
    simp only [blocks_fires, List.count_append, count_block_fires, ih, List.length_cons]
    omega

/-- C9: exactly one fire per clean press.  Starting from Idle with counter 0,
for any number of blocks, each made of at least `PRESS_FRAMES` pressed samples
followed by at least `RELEASE_FRAMES + 1` released samples whose first frame is at
least `COOLDOWN_MS` after the block's `PRESS_FRAMES`-th pressed frame: the fire
flags are, block by block, a single fire on the `PRESS_FRAMES`-th pressed sample,
so exactly as many fires as blocks, and the machine ends in Idle with counter 0.
(The timestamps need not even be non-decreasing.) -/
theorem one_fire_per_clean_press (d : Int) (bs : List PressBlock)
    (hclean : ∀ b, b ∈ bs → clean_block b) :
    fires (ButtonState.mk state.IDLE 0 d) (blocks_frames bs) = blocks_fires bs ∧
      (fires (ButtonState.mk state.IDLE 0 d) (blocks_frames bs)).count true = bs.length ∧
      (run (ButtonState.mk state.IDLE 0 d) (blocks_frames bs)).st = state.IDLE ∧
      (run (ButtonState.mk state.IDLE 0 d) (blocks_frames bs)).counter = 0 := by
  obtain ⟨hf, d2, hr⟩ := clean_blocks_run bs hclean d
  refine ⟨hf, ?_, ?_, ?_⟩
  · rw [hf, count_blocks_fires]
  · rw [hr]
  · rw [hr]

/-- Instance of C9 on two clean presses: fires exactly on the fourth pressed frame
of each block (indices 3 and 13), two fires in all, ending in Idle with counter 0. -/
theorem one_fire_per_clean_press_witness :
    (∀ b, b ∈ example_blocks → clean_block b) ∧
      fires init_button (blocks_frames example_blocks)
        = [false, false, false, true, false, false, false, false, false, false,
           false, false, false, true, false, false, false, false, false, false] ∧
      (fires init_button (blocks_frames example_blocks)).count true = 2 ∧
      (run init_button (blocks_frames example_blocks)).st = state.IDLE ∧
      (run init_button (blocks_frames example_blocks)).counter = 0 :=
  have hclean : ∀ b, b ∈ example_blocks → clean_block b := by
    intro b hb
    simp only [example_blocks, List.mem_cons, List.mem_singleton, List.not_mem_nil,
      or_false] at hb
    rcases hb with rfl | rfl <;> exact ⟨by decide, by decide, by decide⟩
  have h := one_fire_per_clean_press 0 example_blocks hclean
  ⟨hclean, by decide, h.2.1, h.2.2.1, h.2.2.2⟩

end SnesRead
